import Mathlib

/-!
Verification development for the getqt artifact-classification and
package dependency-graph engine (`src/getqt.py`).

The Python source is shallowly embedded: every pure computation becomes an
executable Lean function, dictionary/object mutation becomes explicit state
passing, and code paths that raise exceptions return `Option`/`Except`.
External collaborators (the `dumpbin` binary header inspector, the
filesystem) are passed in as function parameters, so that their answers are
explicit inputs of the embedded functions.

Strings in the Qt artifact domain are ASCII, so Python `str.lower` is
modelled with the ASCII `Char.toLower` of Lean core.
-/

/-! ## String primitives (models of the Python string operations used) -/

/-- Model of Python `str.lower` (ASCII): lower every character. -/
def lowerStr (s : String) : String := ⟨s.data.map Char.toLower⟩

/-- Model of Python `str.startswith`. -/
def strStartsWith (s pre : String) : Bool := pre.data.isPrefixOf s.data

/-- Model of Python `str.endswith`. -/
def strEndsWith (s suf : String) : Bool := suf.data.isSuffixOf s.data

/-- Contiguous-substring test on character lists: `listSubIn pat s` holds
iff `pat` occurs verbatim inside `s` (model of Python `pat in s`). -/
def listSubIn : List Char → List Char → Bool
  | pat, [] => pat.isEmpty
  | pat, c :: t => pat.isPrefixOf (c :: t) || listSubIn pat t

/-- Model of Python `pat in s` (case-sensitive substring containment). -/
def strSubIn (pat s : String) : Bool := listSubIn pat.data s.data

/-- Model of Python `s[:-1]`: drop the final character. -/
def dropLastStr (s : String) : String := ⟨s.data.dropLast⟩

/-- Index of the last character satisfying `p`, if any (model of the
`str.rfind` family restricted to single-character classes). -/
def lastIdxP (p : Char → Bool) : List Char → Option Nat
  | [] => none
  | c :: t =>
    match lastIdxP p t with
    | some i => some (i + 1)
    | none => if p c then some 0 else none

/-- Path separator test; the source ran under Windows `os.path`, which
accepts both the backslash and the forward slash. -/
def isSepChar (c : Char) : Bool := c = '/' || c = '\\'

/-- Model of Python `os.path.splitext`: split off the extension at the last
dot of the base name, unless every character of the base name before that
dot is itself a dot (so that dotfiles such as `.bashrc` keep their name). -/
def splitext (p : String) : String × String :=
  let cs := p.data
  let fnIdx : Nat :=
    match lastIdxP isSepChar cs with
    | some i => i + 1
    | none => 0
  match lastIdxP (fun c => c = '.') cs with
  | some d =>
    if fnIdx ≤ d ∧ ((cs.drop fnIdx).take (d - fnIdx)).any (fun c => c ≠ '.') then
      (⟨cs.take d⟩, ⟨cs.drop d⟩)
    else (p, "")
  | none => (p, "")

/-- Model of Python `os.path.basename`: everything after the last path
separator. -/
def basename (p : String) : String :=
  match lastIdxP isSepChar p.data with
  | some i => ⟨p.data.drop (i + 1)⟩
  | none => p

/-- Model of Python `os.path.join` for a directory and a plain file name.
The concrete separator character is irrelevant to every property proved
below; the POSIX one is used. -/
def pathJoin (d f : String) : String := d ++ "/" ++ f

/-- Model of Python `str.strip` (strip whitespace from both ends). -/
def pyStrip (s : String) : String :=
  ⟨((s.data.dropWhile Char.isWhitespace).reverse.dropWhile Char.isWhitespace).reverse⟩

/-- Model of Python `str.split(' ')`: split at every single space, keeping
empty fragments. -/
def splitOnSpace : List Char → List (List Char)
  | [] => [[]]
  | c :: t =>
    match splitOnSpace t with
    | [] => [[c]]
    | h :: r => if c = ' ' then [] :: h :: r else (c :: h) :: r

/-! ## Static configuration of `getqt.py` -/

/-- `QT_LATEST` of `getqt.py`. -/
def QT_LATEST : String := "5.4.1"

/-- `DEBUG_SUFFIX` of `getqt.py`: the trailing debug marker. -/
def DEBUG_SUFFIX : String := "d"

/-- `IGNORE_FILES` of `getqt.py`. -/
def IGNORE_FILES : List String := ["Qt5Designer", "Qt5QmlDevTools"]

/-- `FIXED_DEPS` of `getqt.py`: the always-present base dependency. -/
def FIXED_DEPS : List String := ["qt5core"]

/-- `MERGE_PACKAGES` of `getqt.py`: the fixed merge table. -/
def MERGE_PACKAGES : List (String × List String) :=
  [("qt5core", ["qtmain", "qt5bootstrap", "qt5platformsupport"]),
   ("qt5multimedia", ["qt5multimediawidgets"]),
   ("qt5opengl", ["qt5openglextensions"]),
   ("qt5xml", ["qt5xmlpatterns"]),
   ("qt5quick", ["qt5quickwidgets", "qt5quicktest", "qt5multimediaquick_p", "qt5quickparticles"]),
   ("qt5webkit", ["qt5webkitwidgets"])]

/-! ## Artifact classifier -/

/-- `file_to_package` of `getqt.py`: lower-case the base name of the file
and strip a trailing debug marker if present. -/
def file_to_package (filename : String) : String :=
  let base := lowerStr (splitext filename).1
  if strEndsWith base DEBUG_SUFFIX then dropLastStr base else base

/-- `Component.TYPE_BINARY`. -/
def TYPE_BINARY : String := "dll"

/-- `Component.TYPE_SYMBOL`. -/
def TYPE_SYMBOL : String := "pdb"

/-- `Component.TYPE_LIBRARY`. -/
def TYPE_LIBRARY : String := "lib"

/-- `Component.BUILD_DEBUG`. -/
def BUILD_DEBUG : String := "debug"

/-- `Component.BUILD_RELEASE`. -/
def BUILD_RELEASE : String := "release"

/-- Kind derivation of `Component.type`, as a function of the artifact
path: a pure function of the extension; any other extension raises
`Exception('Unkown file type')`, modelled as `none`. -/
def path_type (p : String) : Option String :=
  if (splitext p).2 = ".dll" then some TYPE_BINARY
  else if (splitext p).2 = ".pdb" then some TYPE_SYMBOL
  else if (splitext p).2 = ".lib" then some TYPE_LIBRARY
  else none

/-- One matched line of `dumpbin /HEADERS` output, as scanned by
`Component.arch`: the stripped line must start with `8664` or `14C` and
contain `machine`; the reported architecture is the last space-separated
token with its first and last characters removed. -/
def machineLine (line : String) : Option String :=
  let l := pyStrip line
  if (strStartsWith l "8664" || strStartsWith l "14C") && listSubIn "machine".data l.data then
    some ⟨(((splitOnSpace l.data).getLastD []).drop 1).dropLast⟩
  else none

/-- The scan loop of `Component.arch` over the inspector output lines:
return the architecture of the first matching line; when no line matches,
the Python property falls off the end and yields `None`. -/
def dumpbin_arch (lines : List String) : Option String :=
  lines.findSome? machineLine

/-- `Component.arch` of `getqt.py`: derive the architecture of the artifact
at `path`. `fsExists` models `os.path.exists`; `inspect` models running the
binary header inspector (`dumpbin /HEADERS`) on a path and returns its
output lines. For a symbol file the inspector runs on the `.dll` sibling if
it exists, else on the `.lib` sibling, else the code raises
`Exception("Cant find binary for symbol")`; an unrecognized extension makes
the embedded `self.type` call raise first. A run that finds no machine-type
line yields `Except.ok none` (Python returns `None`). -/
def arch_of (fsExists : String → Bool) (inspect : String → List String)
    (path : String) : Except String (Option String) :=
  match path_type path with
  | none => Except.error "Unkown file type"
  | some t =>
    if t = TYPE_SYMBOL then
      let test1 := (splitext path).1 ++ ".dll"
      let test2 := (splitext path).1 ++ ".lib"
      if fsExists test1 then Except.ok (dumpbin_arch (inspect test1))
      else if fsExists test2 then Except.ok (dumpbin_arch (inspect test2))
      else Except.error "Cant find binary for symbol"
    else Except.ok (dumpbin_arch (inspect path))

/-- An artifact as it enters the registry phases. `path` and `targetpath`
are the constructor arguments of `Component`; `arch` holds the inspector's
architecture answer for this artifact (the memoized `_arch`); `imports`
holds the parsed `dumpbin /DEPENDENTS` module list of a DLL (the output of
`_dumpbin_to_deps`, which lower-cases each line), and is empty for other
kinds. -/
structure Component where
  path : String
  targetpath : String
  arch : String
  imports : List String
deriving DecidableEq

/-- `Component.filename`. -/
def Component.filename (c : Component) : String := basename c.path

/-- `Component.extension`. -/
def Component.extension (c : Component) : String := (splitext c.path).2

/-- `Component.normalized_name`. -/
def Component.normalized_name (c : Component) : String := file_to_package c.filename

/-- `Component.type`, via `path_type` on the absolute path. -/
def Component.type (c : Component) : Option String := path_type c.path

/-- `Component.build`: symbol files are always debug builds; otherwise the
debug marker on the file base name decides. -/
def Component.build (c : Component) : String :=
  if c.extension = ".pdb" then BUILD_DEBUG
  else if strEndsWith (splitext c.filename).1 DEBUG_SUFFIX then BUILD_DEBUG
  else BUILD_RELEASE

/-- `DLLComponent.dependencies`: the imported module names that live in the
Qt namespace (prefix `qt`), each normalized with `file_to_package`,
collected as a set. -/
def Component.dependencies (c : Component) : Finset String :=
  ((c.imports.filter (fun dep => strStartsWith dep "qt")).map file_to_package).toFinset

/-! ## Configuration buckets and packages -/

/-- `PackageConfig` of `getqt.py`: the Configuration Bucket for one
(architecture, build flavor) key, holding the three ordered artifact
collections. -/
structure PackageConfig where
  arch : String
  build : String
  binaries : List Component
  symbols : List Component
  libraries : List Component
deriving DecidableEq

/-- `PackageConfig.all`: the concatenation of the three collections. -/
def PackageConfig.all (cfg : PackageConfig) : List Component :=
  cfg.binaries ++ cfg.symbols ++ cfg.libraries

/-- `PackageConfig.add_component`: append the artifact to the collection
matching its kind; an unknown kind raises, modelled as `none`. -/
def PackageConfig.add_component (cfg : PackageConfig) (c : Component) : Option PackageConfig :=
  match c.type with
  | none => none
  | some t =>
    if t = TYPE_BINARY then some { cfg with binaries := cfg.binaries ++ [c] }
    else if t = TYPE_LIBRARY then some { cfg with libraries := cfg.libraries ++ [c] }
    else if t = TYPE_SYMBOL then some { cfg with symbols := cfg.symbols ++ [c] }
    else none

/-- `QtPackage` of `getqt.py`. The Python `configurations` set is modelled
as an insertion-ordered list (the code only ever inserts through
`get_config`, which keeps (arch, build) keys unique). -/
structure QtPackage where
  id : String
  name : String
  version : String
  configurations : List PackageConfig
  dependencies : Finset String
deriving DecidableEq

/-- `QtPackage.__init__`: lower-case the identity and display name, take
the default version, start with no buckets and no dependencies. -/
def QtPackage.init (pid pname : String) : QtPackage :=
  { id := lowerStr pid, name := lowerStr pname, version := QT_LATEST,
    configurations := [], dependencies := ∅ }

/-- Position of the first bucket with the given (arch, build) key (the
search loop of `get_config` over the `configurations` collection). -/
def findConfigIdx : List PackageConfig → String → String → Option Nat
  | [], _, _ => none
  | cfg :: t, arch, build =>
    if cfg.arch = arch ∧ cfg.build = build then some 0
    else (findConfigIdx t arch build).map fun i => i + 1

/-- `QtPackage.get_config`: return the package (with a fresh empty bucket
appended when the key is new) together with the position of the bucket for
(arch, build). -/
def QtPackage.get_config (p : QtPackage) (arch build : String) : QtPackage × Nat :=
  match findConfigIdx p.configurations arch build with
  | some i => (p, i)
  | none =>
    ({ p with configurations := p.configurations ++ [⟨arch, build, [], [], []⟩] },
     p.configurations.length)

/-- Mutation of the bucket at position `i`, as performed through the alias
returned by `get_config`: run `add_component` on that bucket in place. -/
def QtPackage.addAt (p : QtPackage) (i : Nat) (c : Component) : Option QtPackage :=
  match p.configurations[i]? with
  | some cfg => (cfg.add_component c).map fun cfg2 =>
      { p with configurations := p.configurations.set i cfg2 }
  | none => none

/-- `QtPackage.from_component`: build a package named after the artifact
and ingest that first artifact into its bucket. -/
def QtPackage.from_component (c : Component) (vs_version : String := "msvc2013") :
    Option QtPackage :=
  let pid := c.normalized_name ++ "-" ++ vs_version
  let pname := c.normalized_name
  let package := QtPackage.init pid pname
  let pc := package.get_config c.arch c.build
  pc.1.addAt pc.2 c

/-! ## The package registry (the Python `packages` dict) -/

/-- Lookup of the first binding of a key (Python dict access; a Python
dict's keys are unique, which the theorems below carry as a `Nodup`
hypothesis where it matters). -/
def regLookup : List (String × QtPackage) → String → Option QtPackage
  | [], _ => none
  | (k, v) :: t, key => if k = key then some v else regLookup t key

/-- Dict assignment `packages[key] = v`: replace the first binding of the
key, or append a new binding. -/
def regSet : List (String × QtPackage) → String → QtPackage → List (String × QtPackage)
  | [], key, v => [(key, v)]
  | (k, w) :: t, key, v =>
    if k = key then (k, v) :: t else (k, w) :: regSet t key v

/-- Dict deletion `del packages[key]`: drop the first binding of the key. -/
def regDel : List (String × QtPackage) → String → List (String × QtPackage)
  | [], _ => []
  | (k, w) :: t, key => if k = key then t else (k, w) :: regDel t key

/-- Replace the first binding of the key when present; otherwise leave the
registry unchanged (used for writing back an aliased, in-place mutated
package object at the end of a phase). -/
def regSetIfPresent : List (String × QtPackage) → String → QtPackage → List (String × QtPackage)
  | [], _, _ => []
  | (k, w) :: t, key, v =>
    if k = key then (k, v) :: t else (k, w) :: regSetIfPresent t key v

/-- Keys of the registry, in order. -/
def regKeys (r : List (String × QtPackage)) : List String := r.map Prod.fst

/-- The ingestion step of `main` for one discovered artifact: add the
artifact to the existing package of its logical name, or create that
package with the caller-supplied version string. -/
def ingest (packages : List (String × QtPackage)) (c : Component) (version : String) :
    Option (List (String × QtPackage)) :=
  match regLookup packages c.normalized_name with
  | some pkg =>
    let pc := pkg.get_config c.arch c.build
    (pc.1.addAt pc.2 c).map fun pkg2 => regSet packages c.normalized_name pkg2
  | none =>
    (QtPackage.from_component c).map fun package =>
      let package2 := { package with version := version }
      regSet packages package2.name package2

/-! ## Merge operation -/

/-- Transplant one member bucket into the target package: fetch-or-create
the target bucket for the member bucket's (arch, build) key once, then
append every artifact of the member bucket to it. -/
def transplantConfig (target : QtPackage) (config : PackageConfig) : Option QtPackage :=
  let pc := target.get_config config.arch config.build
  config.all.foldlM (fun acc component => acc.addAt pc.2 component) pc.1

/-- Transplant every bucket of a member package into the target. -/
def transplant (target package : QtPackage) : Option QtPackage :=
  package.configurations.foldlM transplantConfig target

/-- One iteration of the member loop of `merge_packages`. The state is the
live target object paired with the registry (in the Python source the
registry's target binding aliases the live object, so when a member name
happens to equal the target name the live target value is used as the
member). `assert packagename in packagelist` failing is `none`. -/
def mergeOne (targetname : String) (st : QtPackage × List (String × QtPackage))
    (packagename : String) : Option (QtPackage × List (String × QtPackage)) :=
  match regLookup st.2 packagename with
  | none => none
  | some stored =>
    let package := if packagename = targetname then st.1 else stored
    (transplant st.1 package).map fun tval => (tval, regDel st.2 packagename)

/-- `merge_packages` of `getqt.py`: fold the member packages' buckets into
the target package and delete each member from the registry; finally the
in-place mutated target object is visible through its (still present)
binding. A failed `assert` is `none`. -/
def merge_packages (packagelist : List (String × QtPackage)) (targetname : String)
    (members : List String) : Option (List (String × QtPackage)) :=
  match regLookup packagelist targetname with
  | none => none
  | some target =>
    (members.foldlM (mergeOne targetname) (target, packagelist)).map fun st =>
      regSetIfPresent st.2 targetname st.1

/-! ## Dependency resolver -/

/-- One step of the dependency loop of `compute_dependencies`: union in one
binary's dependencies, then drop the package's own key if it is present at
this point. -/
def depsStep (packagename : String) (deps : Finset String) (binary : Component) :
    Finset String :=
  let d := deps ∪ binary.dependencies
  if packagename ∈ d then d.erase packagename else d

/-- The dependency set `compute_dependencies` computes for one package:
start from `FIXED_DEPS`, then run `depsStep` over every binary of every
bucket. -/
def package_deps (packagename : String) (package : QtPackage) : Finset String :=
  package.configurations.foldl
    (fun acc config => config.binaries.foldl (depsStep packagename) acc)
    FIXED_DEPS.toFinset

/-- `compute_dependencies` of `getqt.py`: store the computed set on every
package of the registry. -/
def compute_dependencies (packages : List (String × QtPackage)) :
    List (String × QtPackage) :=
  packages.map fun kv => (kv.1, { kv.2 with dependencies := package_deps kv.1 kv.2 })

/-! ## Component discovery -/

/-- One entry of the `os.walk` traversal: a directory path and the plain
file names found inside it. -/
structure WalkEntry where
  dirpath : String
  filenames : List String

/-- A component as constructed by `find_components`: `isDLL` records
whether the Python code built a `DLLComponent` or a plain `Component`. -/
structure RawComponent where
  path : String
  targetpath : String
  isDLL : Bool
deriving DecidableEq

/-- The ignore check of `find_components`: skip the file when some
`IGNORE_FILES` entry occurs verbatim inside the file name. -/
def ignoredFile (filename : String) : Bool :=
  IGNORE_FILES.any fun exclude => strSubIn exclude filename

/-- `find_components` of `getqt.py`: walk the tree; inside `bin` and `lib`
directories, skip ignored files, build a `DLLComponent` for `.dll` files
and a plain `Component` for `.pdb` and `.lib` files, and silently pass over
every other file. -/
def find_components (walk : List WalkEntry) (targetpath : String) : List RawComponent :=
  walk.flatMap fun w =>
    if strEndsWith w.dirpath "bin" || strEndsWith w.dirpath "lib" then
      w.filenames.flatMap fun filename =>
        if ignoredFile filename then []
        else if strEndsWith filename ".dll" then
          [⟨pathJoin w.dirpath filename, targetpath, true⟩]
        else if strEndsWith filename ".pdb" || strEndsWith filename ".lib" then
          [⟨pathJoin w.dirpath filename, targetpath, false⟩]
        else []
    else []

/-! ## Content measures (for the merge-preservation statements) -/

/-- All artifacts of a bucket, as a multiset. -/
def PackageConfig.allM (cfg : PackageConfig) : Multiset Component :=
  (cfg.all : Multiset Component)

/-- All artifacts of a package across all of its buckets, as a multiset. -/
def QtPackage.comps (p : QtPackage) : Multiset Component :=
  (p.configurations.map PackageConfig.allM).sum

/-- The artifacts a package holds in its buckets for one
(architecture, build flavor) key, as a multiset. -/
def QtPackage.compsAt (p : QtPackage) (a b : String) : Multiset Component :=
  ((p.configurations.filter fun cfg => decide (cfg.arch = a ∧ cfg.build = b)).map
    PackageConfig.allM).sum

/-- All artifacts stored anywhere in the registry. -/
def regComps (r : List (String × QtPackage)) : Multiset Component :=
  (r.map fun kv => kv.2.comps).sum

/-- The artifacts the named package holds for one key, seen through the
registry (empty when the name is absent). -/
def regCompsAt (r : List (String × QtPackage)) (n a b : String) : Multiset Component :=
  match regLookup r n with
  | some p => p.compsAt a b
  | none => 0

/-! ## Helper lemmas on the string primitives -/

/-- Valid small code points survive the `Char.ofNat`/`Char.toNat` round
trip. -/
theorem char_toNat_ofNat_lt (n : Nat) (h : n < 55296) : (Char.ofNat n).toNat = n := by
  simp [Char.ofNat, Nat.isValidChar, h, Char.ofNatAux, Char.toNat, UInt32.toNat,
    BitVec.toNat_ofNatLt]

/-- ASCII lowering is idempotent on characters. -/
theorem char_toLower_idem (c : Char) : Char.toLower (Char.toLower c) = Char.toLower c := by
  unfold Char.toLower
  by_cases h : c.toNat ≥ 65 ∧ c.toNat ≤ 90
  · rw [if_pos h, if_neg]
    have h32 : (Char.ofNat (c.toNat + 32)).toNat = c.toNat + 32 :=
      char_toNat_ofNat_lt _ (by omega)
    rw [h32]; omega
  · rw [if_neg h, if_neg h]

/-- Data view of `lowerStr`. -/
theorem lowerStr_data (s : String) : (lowerStr s).data = s.data.map Char.toLower := rfl

/-- Python lowering is idempotent on strings. -/
theorem lowerStr_idem (s : String) : lowerStr (lowerStr s) = lowerStr s := by
  apply String.ext
  simp [lowerStr_data, Function.comp, char_toLower_idem]

/-- Lowering commutes with dropping the final character. -/
theorem lowerStr_dropLastStr (s : String) : lowerStr (dropLastStr s) = dropLastStr (lowerStr s) := by
  apply String.ext
  simp [lowerStr_data, dropLastStr, List.map_dropLast]

/-- A one-character list is a suffix exactly of the lists with that last
element. -/
theorem singleton_isSuffixOf_iff (l : List Char) (c : Char) :
    [c].isSuffixOf l = true ↔ l.getLast? = some c := by
  rw [List.isSuffixOf_iff_suffix]
  induction l with
  | nil => simp
  | cons a t ih =>
    cases t with
    | nil => simp [List.suffix_cons_iff, eq_comm]
    | cons b t2 =>
      rw [List.suffix_cons_iff, List.getLast?_cons_cons, ih]
      simp

/-- `strEndsWith` against the debug marker reads off the last character. -/
theorem strEndsWith_debug_iff (s : String) :
    strEndsWith s DEBUG_SUFFIX = true ↔ s.data.getLast? = some 'd' := by
  have : (DEBUG_SUFFIX).data = ['d'] := rfl
  unfold strEndsWith
  rw [this]
  exact singleton_isSuffixOf_iff _ _

/-- The logical name computed by `file_to_package` is fixed by lowering (it
is entirely lower-case). -/
theorem lowerStr_file_to_package (f : String) :
    lowerStr (file_to_package f) = file_to_package f := by
  unfold file_to_package
  by_cases h : strEndsWith (lowerStr (splitext f).1) DEBUG_SUFFIX = true
  · simp only [h, if_true, lowerStr_dropLastStr, lowerStr_idem]
  · simp only [h, if_false, Bool.false_eq_true, lowerStr_idem]

/-! ## Claim C3 — logical name classification -/

/-- C3 counterexample: the debug-marker half of the claim fails when the
base name itself ends in the marker character. For the base name
`qt5quick3d`, the marker-carrying file `qt5quick3dd.dll` maps to
`qt5quick3d`, but its counterpart without the marker, `qt5quick3d.dll`,
maps to `qt5quick3` — the code strips the final `d` of the plain file as
well, so the two logical names differ. -/
theorem file_to_package_marker_pair_fails :
    file_to_package "qt5quick3dd.dll" = "qt5quick3d" ∧
    file_to_package "qt5quick3d.dll" = "qt5quick3" := by decide

/-- C3 (amended): `file_to_package` is deterministic and entirely
lower-case (lowering it again changes nothing), and a file carrying the
trailing debug marker maps to the same logical name as its counterpart
without the marker whenever the lower-cased base name of the counterpart
does not itself end in the marker character `d`. -/
theorem file_to_package_classification :
    (∀ s t : String, s = t → file_to_package s = file_to_package t) ∧
    (∀ f : String, lowerStr (file_to_package f) = file_to_package f) ∧
    (∀ b ext : String,
      splitext (b ++ ext) = (b, ext) →
      splitext (b ++ DEBUG_SUFFIX ++ ext) = (b ++ DEBUG_SUFFIX, ext) →
      (lowerStr b).data.getLast? ≠ some 'd' →
      file_to_package (b ++ DEBUG_SUFFIX ++ ext) = file_to_package (b ++ ext)) := by
  refine ⟨fun s t h => by rw [h], lowerStr_file_to_package, fun b ext h1 h2 h3 => ?_⟩
  have hld : (lowerStr (b ++ DEBUG_SUFFIX)).data = (lowerStr b).data ++ ['d'] := by
    have hd : Char.toLower 'd' = 'd' := by decide
    simp [lowerStr_data, String.data_append, DEBUG_SUFFIX, hd]
  have hEnd1 : strEndsWith (lowerStr (b ++ DEBUG_SUFFIX)) DEBUG_SUFFIX = true := by
    rw [strEndsWith_debug_iff, hld, List.getLast?_concat]
  have hEnd2 : strEndsWith (lowerStr b) DEBUG_SUFFIX = false := by
    rw [Bool.eq_false_iff]
    intro hcon
    exact h3 ((strEndsWith_debug_iff _).mp hcon)
  unfold file_to_package
  rw [h1, h2]
  simp only [hEnd1, hEnd2, if_true, Bool.false_eq_true, if_false]
  apply String.ext
  rw [dropLastStr, hld, List.dropLast_concat]

/-- C3 witness: the amended theorem applied to the Qt artifact pair
`qt5guid.dll` / `qt5gui.dll`, whose shared base name does not end in the
marker. -/
theorem file_to_package_classification_witness :
    file_to_package ("qt5gui" ++ DEBUG_SUFFIX ++ ".dll") = file_to_package ("qt5gui" ++ ".dll") :=
  file_to_package_classification.2.2 "qt5gui" ".dll" (by decide) (by decide) (by decide)

/-! ## Claims C5 and C8 — architecture derivation -/

/-- C5 counterexample: for a binary artifact whose inspector output has no
usable machine-type line, the architecture derivation does not fail — the
Python property falls off the end of its scan loop and silently yields
`None` (absent architecture), refuting the claim that classification always
fails with an explicit error in that situation. -/
theorem arch_no_evidence_silent :
    arch_of (fun _ => false) (fun _ => ["header junk"]) "qt5core.dll" = Except.ok none := rfl

/-- C5 (amended): the architecture derivation raises the explicit error
`Cant find binary for symbol` for a Symbol artifact with neither a `.dll`
nor a `.lib` sibling; but when the inspector runs and its output carries no
usable machine-type line, the derivation silently yields an absent
architecture (`none`) instead of failing. -/
theorem arch_error_spec :
    (∀ (fsExists : String → Bool) (inspect : String → List String) (path : String),
      (splitext path).2 = ".pdb" →
      fsExists ((splitext path).1 ++ ".dll") = false →
      fsExists ((splitext path).1 ++ ".lib") = false →
      arch_of fsExists inspect path = Except.error "Cant find binary for symbol") ∧
    (∀ (fsExists : String → Bool) (inspect : String → List String) (path : String),
      path_type path = some TYPE_BINARY →
      (∀ line ∈ inspect path, machineLine line = none) →
      arch_of fsExists inspect path = Except.ok none) := by
  constructor
  · intro fsExists inspect path hext h1 h2
    have hty : path_type path = some TYPE_SYMBOL := by
      simp [path_type, hext]
    simp [arch_of, hty, TYPE_SYMBOL, h1, h2]
  · intro fsExists inspect path hty hnone
    have hne : (TYPE_BINARY = TYPE_SYMBOL) = False := by simp [TYPE_BINARY, TYPE_SYMBOL]
    simp [arch_of, hty, hne, dumpbin_arch, List.findSome?_eq_none_iff]
    exact hnone

/-- C5 witness: the amended theorem at a sibling-less symbol file and at a
binary whose inspector output carries no machine-type line. -/
theorem arch_error_spec_witness :
    arch_of (fun _ => false) (fun _ => ["header junk"]) "qt5gui.pdb" =
      Except.error "Cant find binary for symbol" ∧
    arch_of (fun _ => false) (fun _ => ["header junk"]) "qt5core.dll" = Except.ok none :=
  ⟨arch_error_spec.1 _ _ "qt5gui.pdb" (by decide) rfl rfl,
   arch_error_spec.2 _ _ "qt5core.dll" (by decide) (by decide)⟩

/-- C8 (confirmed): for a Symbol artifact the architecture is derived by
running the binary header inspector on the sibling file with the same base
name — on the `.dll` sibling when it exists, otherwise on the `.lib`
sibling — and when neither sibling exists the derivation raises
`Cant find binary for symbol`. -/
theorem arch_symbol_sibling :
    ∀ (fsExists : String → Bool) (inspect : String → List String) (path : String),
      (splitext path).2 = ".pdb" →
      (fsExists ((splitext path).1 ++ ".dll") = true →
        arch_of fsExists inspect path =
          Except.ok (dumpbin_arch (inspect ((splitext path).1 ++ ".dll")))) ∧
      (fsExists ((splitext path).1 ++ ".dll") = false →
        fsExists ((splitext path).1 ++ ".lib") = true →
        arch_of fsExists inspect path =
          Except.ok (dumpbin_arch (inspect ((splitext path).1 ++ ".lib")))) ∧
      (fsExists ((splitext path).1 ++ ".dll") = false →
        fsExists ((splitext path).1 ++ ".lib") = false →
        arch_of fsExists inspect path = Except.error "Cant find binary for symbol") := by
  intro fsExists inspect path hext
  have hty : path_type path = some TYPE_SYMBOL := by simp [path_type, hext]
  refine ⟨fun h1 => ?_, fun h1 h2 => ?_, fun h1 h2 => ?_⟩
  · simp [arch_of, hty, TYPE_SYMBOL, h1]
  · simp [arch_of, hty, TYPE_SYMBOL, h1, h2]
  · simp [arch_of, hty, TYPE_SYMBOL, h1, h2]

/-- C8 witness: a symbol file whose `.dll` sibling exists is classified
through the inspector output of that sibling. -/
theorem arch_symbol_sibling_witness :
    arch_of (fun s => s == "qt5gui.dll") (fun _ => ["        8664 machine (x64)"]) "qt5gui.pdb" =
      Except.ok (some "x64") := by
  have h := (arch_symbol_sibling (fun s => s == "qt5gui.dll")
    (fun _ => ["        8664 machine (x64)"]) "qt5gui.pdb" (by decide)).1 (by decide)
  rw [h]
  rfl

/-! ## Claims C7 and C10 — component discovery -/

/-- Appending a file name to a directory keeps the file name's suffix. -/
theorem strEndsWith_pathJoin (d f suf : String) (h : strEndsWith f suf = true) :
    strEndsWith (pathJoin d f) suf = true := by
  unfold strEndsWith at *
  rw [List.isSuffixOf_iff_suffix] at *
  unfold pathJoin
  rw [String.data_append, String.data_append]
  rw [List.append_assoc]
  exact h.trans ((List.suffix_append _ _).trans (List.suffix_append _ _))

/-- Joining distinct file names to the same directory gives distinct
paths. -/
theorem pathJoin_right_inj (d f g : String) (h : pathJoin d f = pathJoin d g) : f = g := by
  unfold pathJoin at h
  have hd := congrArg String.data h
  rw [String.data_append, String.data_append, String.data_append, String.data_append,
    List.append_assoc, List.append_assoc] at hd
  exact String.ext (List.append_cancel_left (List.append_cancel_left hd))

/-- C7 counterexample: a `.exe` file under a binaries directory raises
nothing — `find_components` silently passes over it and produces no
artifact at all (the function is total; the Python loop has no raise path
for an unmatched extension, since `Component.type` is never evaluated for a
file that never becomes a `Component`). -/
theorem find_components_exe_skipped :
    find_components [⟨"qt/bin", ["prog.exe"]⟩] "t" = [] := rfl

/-- C7 (amended): a file under a binaries directory whose extension is not
one of the recognized artifact extensions is silently skipped by component
discovery — every artifact `find_components` produces carries a recognized
extension, and no error is raised for the skipped file. The
`Unkown file type` classification error of kind derivation (modelled by
`path_type` returning `none`, e.g. on a `.exe` path) would only fire if a
`Component` were constructed for such a file, which discovery never does. -/
theorem find_components_skips_unknown :
    (∀ (walk : List WalkEntry) (tp : String) (c : RawComponent),
      c ∈ find_components walk tp →
      (strEndsWith c.path ".dll" || strEndsWith c.path ".pdb" || strEndsWith c.path ".lib") = true) ∧
    (∀ p : String, (splitext p).2 = ".exe" → path_type p = none) := by
  constructor
  · intro walk tp c hc
    simp only [find_components, List.mem_flatMap] at hc
    obtain ⟨w, hw, hcw⟩ := hc
    split at hcw
    · obtain ⟨g, hg, hcg⟩ := List.mem_flatMap.mp hcw
      split at hcg
      · simp at hcg
      · split at hcg
        · rename_i hdll
          simp only [List.mem_singleton] at hcg
          subst hcg
          simp [strEndsWith_pathJoin _ _ _ hdll]
        · split at hcg
          · rename_i hpl
            simp only [List.mem_singleton] at hcg
            subst hcg
            rcases (Bool.or_eq_true _ _).mp hpl with h | h
            · simp [strEndsWith_pathJoin _ _ _ h]
            · simp [strEndsWith_pathJoin _ _ _ h]
          · simp at hcg
    · simp at hcw
  · intro p h
    simp [path_type, h]

/-- C7 witness: the amended theorem applied to a discovered `.dll` artifact
and to the unrecognized path `prog.exe`. -/
theorem find_components_skips_unknown_witness :
    (strEndsWith "qt/bin/qt5core.dll" ".dll" || strEndsWith "qt/bin/qt5core.dll" ".pdb" ||
      strEndsWith "qt/bin/qt5core.dll" ".lib") = true ∧ path_type "prog.exe" = none :=
  ⟨find_components_skips_unknown.1 [⟨"qt/bin", ["qt5core.dll"]⟩] "t"
      ⟨"qt/bin/qt5core.dll", "t", true⟩ (by decide),
   find_components_skips_unknown.2 "prog.exe" (by decide)⟩

/-- C10 (confirmed): for a file with a recognized artifact extension under
a binaries or libraries directory, discovery skips it exactly when some
`IGNORE_FILES` entry occurs verbatim — case-sensitively — inside the file
name: the file's path is among the discovered components' paths iff the
file is present in the directory and no ignore-list entry is a verbatim
substring of its name. -/
theorem find_components_ignore_filter
    (d f tp : String) (fs : List String)
    (hdir : (strEndsWith d "bin" || strEndsWith d "lib") = true)
    (hext : (strEndsWith f ".dll" || strEndsWith f ".pdb" || strEndsWith f ".lib") = true) :
    (pathJoin d f ∈ (find_components [⟨d, fs⟩] tp).map RawComponent.path ↔
      f ∈ fs ∧ ignoredFile f = false) := by
  constructor
  · intro h
    rw [List.mem_map] at h
    obtain ⟨c, hc, hcp⟩ := h
    simp only [find_components, List.flatMap_cons, List.flatMap_nil, List.append_nil, hdir,
      if_true, List.mem_flatMap] at hc
    obtain ⟨g, hg, hcg⟩ := hc
    by_cases hig : ignoredFile g = true
    · simp [hig] at hcg
    · rw [Bool.not_eq_true] at hig
      simp only [hig, Bool.false_eq_true, if_false] at hcg
      have hpath : c.path = pathJoin d g := by
        split at hcg
        · simp at hcg; rw [hcg]
        · split at hcg
          · simp at hcg; rw [hcg]
          · simp at hcg
      have : g = f := pathJoin_right_inj d g f (by rw [← hpath, hcp])
      subst this
      exact ⟨hg, hig⟩
  · rintro ⟨hmem, hig⟩
    rw [List.mem_map]
    by_cases hdll : strEndsWith f ".dll" = true
    · refine ⟨⟨pathJoin d f, tp, true⟩, ?_, rfl⟩
      simp only [find_components, List.flatMap_cons, List.flatMap_nil, List.append_nil, hdir,
        if_true, List.mem_flatMap]
      exact ⟨f, hmem, by simp [hig, hdll]⟩
    · refine ⟨⟨pathJoin d f, tp, false⟩, ?_, rfl⟩
      simp only [find_components, List.flatMap_cons, List.flatMap_nil, List.append_nil, hdir,
        if_true, List.mem_flatMap]
      rw [Bool.not_eq_true] at hdll
      have hpl : (strEndsWith f ".pdb" || strEndsWith f ".lib") = true := by
        rw [hdll] at hext; simpa using hext
      exact ⟨f, hmem, by simp [hig, hdll, hpl]⟩

/-- C10 witness: `qt5designer.dll`, a differently-cased variant of the
ignored entry `Qt5Designer`, is still discovered and classified — the
ignore test is case-sensitive. -/
theorem find_components_ignore_filter_witness :
    pathJoin "qt/bin" "qt5designer.dll" ∈
      (find_components [⟨"qt/bin", ["qt5designer.dll"]⟩] "t").map RawComponent.path :=
  (find_components_ignore_filter "qt/bin" "qt5designer.dll" "t" ["qt5designer.dll"]
    (by decide) (by decide)).mpr ⟨by decide, by decide⟩

/-! ## Claims C1 and C4 — dependency resolution -/

/-- Lookup through `compute_dependencies` rewrites the stored package's
dependency set and changes nothing else. -/
theorem regLookup_compute_dependencies (reg : List (String × QtPackage)) (n : String) :
    regLookup (compute_dependencies reg) n =
      (regLookup reg n).map fun p => { p with dependencies := package_deps n p } := by
  induction reg with
  | nil => rfl
  | cons kv t ih =>
    obtain ⟨k, p⟩ := kv
    simp only [compute_dependencies, List.map_cons] at *
    by_cases h : k = n
    · subst h; simp [regLookup]
    · simp only [regLookup, h, if_neg, if_false]
      exact ih

/-- The package's own key never survives a `depsStep` (the step erases it
whenever it is present after the union). -/
theorem depsStep_self_not_mem (name : String) (acc : Finset String) (c : Component) :
    name ∉ depsStep name acc c := by
  unfold depsStep
  by_cases h : name ∈ acc ∪ c.dependencies
  · simp only [h, if_true]
    exact Finset.not_mem_erase name _
  · rw [if_neg h]
    exact h

/-- After folding `depsStep` over at least one binary, the package's own
key is absent — the last step ends with the erase check. -/
theorem foldl_depsStep_self_not_mem (name : String) :
    ∀ (l : List Component) (acc : Finset String), l ≠ [] →
      name ∉ l.foldl (depsStep name) acc := by
  intro l
  induction l with
  | nil => simp
  | cons c t ih =>
    intro acc _
    rw [List.foldl_cons]
    cases t with
    | nil => simpa using depsStep_self_not_mem name acc c
    | cons d t2 => exact ih _ (by simp)

/-- The nested fold of `package_deps` equals the fold over the flattened
binary list of all buckets. -/
theorem package_deps_flat (name : String) (p : QtPackage) :
    package_deps name p =
      (p.configurations.flatMap PackageConfig.binaries).foldl (depsStep name)
        FIXED_DEPS.toFinset := by
  unfold package_deps
  generalize FIXED_DEPS.toFinset = acc
  induction p.configurations generalizing acc with
  | nil => rfl
  | cons cfg t ih => rw [List.foldl_cons, List.flatMap_cons, List.foldl_append, ih]

/-- A `depsStep` keeps every element other than the package's own key. -/
theorem depsStep_mem_preserved (name x : String) (h : x ≠ name) (acc : Finset String)
    (c : Component) (hx : x ∈ acc) : x ∈ depsStep name acc c := by
  unfold depsStep
  have hu : x ∈ acc ∪ c.dependencies := Finset.mem_union_left _ hx
  by_cases hm : name ∈ acc ∪ c.dependencies
  · simp only [hm, if_true]
    exact Finset.mem_erase.mpr ⟨h, hu⟩
  · simp only [hm, if_false]
    exact hu

/-- Folding `depsStep` keeps every element other than the package's own
key. -/
theorem foldl_depsStep_mem_preserved (name x : String) (h : x ≠ name) :
    ∀ (l : List Component) (acc : Finset String), x ∈ acc →
      x ∈ l.foldl (depsStep name) acc := by
  intro l
  induction l with
  | nil => intro acc hx; exact hx
  | cons c t ih =>
    intro acc hx
    rw [List.foldl_cons]
    exact ih _ (depsStep_mem_preserved name x h acc c hx)

/-- C1 counterexample: a package named `qt5core` with no Binary artifacts
keeps its own display name inside its computed dependency set. The
self-reference removal of `compute_dependencies` sits inside the
per-binary loop, so a binary-less package never runs it, and the fixed base
dependency `qt5core` — equal to the package's own name here — survives. -/
theorem compute_dependencies_self_retained :
    "qt5core" ∈ package_deps "qt5core" ⟨"qt5core-msvc2013", "qt5core", "5.4.1", [], ∅⟩ ∧
    regLookup (compute_dependencies
        [("qt5core", ⟨"qt5core-msvc2013", "qt5core", "5.4.1", [], ∅⟩)]) "qt5core" =
      some ⟨"qt5core-msvc2013", "qt5core", "5.4.1", [], {"qt5core"}⟩ := by decide

/-- C1 (amended): after `compute_dependencies`, a package's own key is not
a member of its computed dependency set, provided the package has at least
one Binary artifact in some Configuration Bucket; a binary-less package
receives exactly the fixed base dependency set, so the base package itself,
when binary-less, retains its own name. -/
theorem compute_dependencies_no_self (reg : List (String × QtPackage)) (name : String)
    (p : QtPackage) (hp : regLookup reg name = some p)
    (hbin : p.configurations.flatMap PackageConfig.binaries ≠ []) :
    ∀ q, regLookup (compute_dependencies reg) name = some q → name ∉ q.dependencies := by
  intro q hq
  rw [regLookup_compute_dependencies, hp, Option.map_some'] at hq
  cases hq
  show name ∉ package_deps name p
  rw [package_deps_flat]
  exact foldl_depsStep_self_not_mem name _ _ hbin

/-- C1 witness: the amended theorem at a one-package registry whose
package holds one binary. -/
theorem compute_dependencies_no_self_witness :
    "qt5gui" ∉ (QtPackage.mk "qt5gui-msvc2013" "qt5gui" "5.4.1"
        [⟨"x64", "release", [⟨"qt/bin/qt5gui.dll", "t", "x64", []⟩], [], []⟩]
        {"qt5core"}).dependencies :=
  compute_dependencies_no_self
    [("qt5gui", ⟨"qt5gui-msvc2013", "qt5gui", "5.4.1",
        [⟨"x64", "release", [⟨"qt/bin/qt5gui.dll", "t", "x64", []⟩], [], []⟩], ∅⟩)]
    "qt5gui"
    ⟨"qt5gui-msvc2013", "qt5gui", "5.4.1",
        [⟨"x64", "release", [⟨"qt/bin/qt5gui.dll", "t", "x64", []⟩], [], []⟩], ∅⟩
    (by decide) (by decide) _ (by decide)

/-- C4 counterexample: the `qt5core` base package with no Binary artifacts
(here it holds only a `.pdb` symbol artifact) keeps the fixed base
dependency — its own name — in its own dependency set, contradicting the
claimed no-self-dependency exception. -/
theorem compute_dependencies_base_self_retained :
    "qt5core" ∈ package_deps "qt5core"
      ⟨"qt5core-msvc2013", "qt5core", "5.4.1",
        [⟨"x64", "release", [], [⟨"qt/bin/qt5core.pdb", "t", "x64", []⟩], []⟩], ∅⟩ := by decide

/-- C4 (amended): after `compute_dependencies`, the fixed base dependency
`qt5core` is a member of every other package's dependency set; the base
package itself excludes it provided it has at least one Binary artifact in
some bucket (a binary-less base package keeps it). -/
theorem compute_dependencies_base_dep (reg : List (String × QtPackage)) (name : String)
    (p q : QtPackage) (hp : regLookup reg name = some p)
    (hq : regLookup (compute_dependencies reg) name = some q) :
    (name ≠ "qt5core" → "qt5core" ∈ q.dependencies) ∧
    (name = "qt5core" → p.configurations.flatMap PackageConfig.binaries ≠ [] →
      "qt5core" ∉ q.dependencies) := by
  rw [regLookup_compute_dependencies, hp, Option.map_some'] at hq
  cases hq
  constructor
  · intro hne
    show "qt5core" ∈ package_deps name p
    rw [package_deps_flat]
    refine foldl_depsStep_mem_preserved name "qt5core" (fun hcon => hne hcon.symm) _ _ ?_
    decide
  · intro he hbin
    subst he
    show "qt5core" ∉ package_deps "qt5core" p
    rw [package_deps_flat]
    exact foldl_depsStep_self_not_mem _ _ _ hbin

/-- C4 witness: the amended theorem at a registry holding the non-base
package `qt5gui`, whose resolved set contains the base dependency. -/
theorem compute_dependencies_base_dep_witness :
    "qt5core" ∈ (QtPackage.mk "qt5gui-msvc2013" "qt5gui" "5.4.1"
        [⟨"x64", "release", [⟨"qt/bin/qt5gui.dll", "t", "x64", []⟩], [], []⟩]
        {"qt5core"}).dependencies :=
  (compute_dependencies_base_dep
    [("qt5gui", ⟨"qt5gui-msvc2013", "qt5gui", "5.4.1",
        [⟨"x64", "release", [⟨"qt/bin/qt5gui.dll", "t", "x64", []⟩], [], []⟩], ∅⟩)]
    "qt5gui"
    ⟨"qt5gui-msvc2013", "qt5gui", "5.4.1",
        [⟨"x64", "release", [⟨"qt/bin/qt5gui.dll", "t", "x64", []⟩], [], []⟩], ∅⟩
    _ (by decide) (by decide)).1 (by decide)

/-! ## Claim C6 — idempotent ingestion -/

/-- A dict assignment makes the key's lookup return the new value. -/
theorem regLookup_regSet_self (r : List (String × QtPackage)) (k : String) (v : QtPackage) :
    regLookup (regSet r k v) k = some v := by
  induction r with
  | nil => simp [regSet, regLookup]
  | cons kv t ih =>
    obtain ⟨k2, w⟩ := kv
    by_cases h : k2 = k
    · subst h; simp [regSet, regLookup]
    · simp [regSet, regLookup, h, ih]

/-- A dict assignment to an existing key leaves the key sequence
unchanged. -/
theorem regKeys_regSet_of_mem (r : List (String × QtPackage)) (k : String) (v : QtPackage)
    (h : (regLookup r k).isSome) : regKeys (regSet r k v) = regKeys r := by
  induction r with
  | nil => simp [regLookup] at h
  | cons kv t ih =>
    obtain ⟨k2, w⟩ := kv
    by_cases hk : k2 = k
    · subst hk; simp [regSet, regKeys]
    · simp only [regLookup, hk, if_neg, if_false] at h
      simp only [regSet, hk, if_neg, if_false, regKeys, List.map_cons, List.cons.injEq, true_and]
      exact ih h

/-- A found bucket position holds a bucket with the searched key. -/
theorem findConfigIdx_eq_some (l : List PackageConfig) (a b : String) :
    ∀ i, findConfigIdx l a b = some i →
      ∃ cfg, l[i]? = some cfg ∧ cfg.arch = a ∧ cfg.build = b := by
  induction l with
  | nil => intro i h; simp [findConfigIdx] at h
  | cons cfg t ih =>
    intro i h
    unfold findConfigIdx at h
    split at h
    · rename_i hkey
      cases h
      exact ⟨cfg, by simp, hkey.1, hkey.2⟩
    · cases hf : findConfigIdx t a b with
      | none => rw [hf] at h; simp at h
      | some j =>
        rw [hf] at h
        simp only [Option.map_some', Option.some.injEq] at h
        subst h
        obtain ⟨cfg2, hc, ha, hb⟩ := ih j hf
        exact ⟨cfg2, by simpa using hc, ha, hb⟩

/-- The bucket search succeeds when some bucket carries the key. -/
theorem findConfigIdx_isSome (l : List PackageConfig) (a b : String)
    (h : ∃ cfg ∈ l, cfg.arch = a ∧ cfg.build = b) :
    (findConfigIdx l a b).isSome := by
  induction l with
  | nil => simp at h
  | cons cfg t ih =>
    unfold findConfigIdx
    by_cases hkey : cfg.arch = a ∧ cfg.build = b
    · simp [hkey]
    · rw [if_neg hkey]
      simp only [List.mem_cons] at h
      obtain ⟨c2, hc2, hk2⟩ := h
      rcases hc2 with rfl | hc2
      · exact absurd hk2 hkey
      · have hs := ih ⟨c2, hc2, hk2⟩
        cases hf : findConfigIdx t a b with
        | none => rw [hf] at hs; simp at hs
        | some j => simp [hf]

/-- `get_config` changes neither identity, nor display name, nor
version. -/
theorem get_config_meta (p : QtPackage) (a b : String) :
    (p.get_config a b).1.id = p.id ∧ (p.get_config a b).1.name = p.name ∧
    (p.get_config a b).1.version = p.version := by
  unfold QtPackage.get_config
  cases findConfigIdx p.configurations a b <;> simp

/-- `get_config` returns the position of a bucket carrying the requested
key. -/
theorem get_config_key (p : QtPackage) (a b : String) :
    ∃ cfg, (p.get_config a b).1.configurations[(p.get_config a b).2]? = some cfg ∧
      cfg.arch = a ∧ cfg.build = b := by
  unfold QtPackage.get_config
  cases hf : findConfigIdx p.configurations a b with
  | some i => exact findConfigIdx_eq_some _ a b i hf
  | none =>
    refine ⟨⟨a, b, [], [], []⟩, ?_, rfl, rfl⟩
    exact List.getElem?_concat_length p.configurations ⟨a, b, [], [], []⟩

/-- When a bucket with the requested key already exists, `get_config`
creates nothing. -/
theorem get_config_stable (p : QtPackage) (a b : String)
    (h : ∃ cfg ∈ p.configurations, cfg.arch = a ∧ cfg.build = b) :
    (p.get_config a b).1 = p := by
  unfold QtPackage.get_config
  have hs := findConfigIdx_isSome p.configurations a b h
  cases hf : findConfigIdx p.configurations a b with
  | none => rw [hf] at hs; simp at hs
  | some i => simp

/-- `add_component` never changes the bucket's key. -/
theorem add_component_key (cfg : PackageConfig) (c : Component) (cfg2 : PackageConfig)
    (h : cfg.add_component c = some cfg2) :
    cfg2.arch = cfg.arch ∧ cfg2.build = cfg.build := by
  cases hc : c.type with
  | none => simp [PackageConfig.add_component, hc] at h
  | some t =>
    simp only [PackageConfig.add_component, hc] at h
    split at h
    · injection h with h; subst h; exact ⟨rfl, rfl⟩
    · split at h
      · injection h with h; subst h; exact ⟨rfl, rfl⟩
      · split at h
        · injection h with h; subst h; exact ⟨rfl, rfl⟩
        · cases h

/-- A successful `addAt` keeps identity, display name, version and the
bucket count, and keeps the key of the touched bucket. -/
theorem addAt_spec (p : QtPackage) (i : Nat) (c : Component) (p2 : QtPackage)
    (h : p.addAt i c = some p2) :
    p2.id = p.id ∧ p2.name = p.name ∧ p2.version = p.version ∧
    p2.configurations.length = p.configurations.length ∧
    (∀ cfg, p.configurations[i]? = some cfg →
      ∃ cfg2, p2.configurations[i]? = some cfg2 ∧ cfg2.arch = cfg.arch ∧ cfg2.build = cfg.build) := by
  cases hg : p.configurations[i]? with
  | none => simp [QtPackage.addAt, hg] at h
  | some cfg =>
    simp only [QtPackage.addAt, hg] at h
    cases ha : cfg.add_component c with
    | none => rw [ha] at h; cases h
    | some cfg2 =>
      rw [ha] at h
      simp only [Option.map_some', Option.some.injEq] at h
      subst h
      have hlt : i < p.configurations.length := by
        by_contra hge
        rw [List.getElem?_eq_none (by omega)] at hg
        cases hg
      refine ⟨rfl, rfl, rfl, List.length_set _ _ _, ?_⟩
      intro cfg' hcfg'
      injection hcfg' with hcfg'
      subst hcfg'
      have hkey := add_component_key cfg c cfg2 ha
      exact ⟨cfg2, by simpa using List.getElem?_set_self (l := p.configurations) (a := cfg2) hlt,
        hkey.1, hkey.2⟩

/-- After a successful ingestion, the artifact's logical name resolves to a
package holding a bucket for the artifact's (arch, build) key. -/
theorem ingest_result_lookup (reg : List (String × QtPackage)) (c : Component) (v : String)
    (reg1 : List (String × QtPackage)) (h1 : ingest reg c v = some reg1) :
    ∃ q1, regLookup reg1 c.normalized_name = some q1 ∧
      ∃ cfg ∈ q1.configurations, cfg.arch = c.arch ∧ cfg.build = c.build := by
  cases hl : regLookup reg c.normalized_name with
  | some pkg =>
    simp only [ingest, hl] at h1
    cases ha : ((pkg.get_config c.arch c.build).1.addAt (pkg.get_config c.arch c.build).2 c) with
    | none => rw [ha] at h1; cases h1
    | some pkg2 =>
      rw [ha] at h1
      simp only [Option.map_some', Option.some.injEq] at h1
      subst h1
      refine ⟨pkg2, regLookup_regSet_self _ _ _, ?_⟩
      obtain ⟨cfg, hcfg, harch, hbuild⟩ := get_config_key pkg c.arch c.build
      obtain ⟨-, -, -, -, hidx⟩ := addAt_spec _ _ _ _ ha
      obtain ⟨cfg2, hcfg2, ha2, hb2⟩ := hidx cfg hcfg
      exact ⟨cfg2, List.getElem?_mem hcfg2, ha2.trans harch, hb2.trans hbuild⟩
  | none =>
    simp only [ingest, hl] at h1
    cases hfc : QtPackage.from_component c with
    | none => rw [hfc] at h1; cases h1
    | some package =>
      rw [hfc] at h1
      simp only [Option.map_some', Option.some.injEq] at h1
      subst h1
      have hname : package.name = c.normalized_name := by
        have hfc2 := hfc
        unfold QtPackage.from_component at hfc2
        obtain ⟨-, hn, -, -, -⟩ := addAt_spec _ _ _ _ hfc2
        rw [hn, (get_config_meta _ _ _).2.1]
        exact lowerStr_file_to_package _
      have hkey : ∃ cfg ∈ package.configurations, cfg.arch = c.arch ∧ cfg.build = c.build := by
        have hfc2 := hfc
        unfold QtPackage.from_component at hfc2
        obtain ⟨cfg, hcfg, harch, hbuild⟩ :=
          get_config_key (QtPackage.init (c.normalized_name ++ "-" ++ "msvc2013")
            c.normalized_name) c.arch c.build
        obtain ⟨-, -, -, -, hidx⟩ := addAt_spec _ _ _ _ hfc2
        obtain ⟨cfg2, hcfg2, ha2, hb2⟩ := hidx cfg hcfg
        exact ⟨cfg2, List.getElem?_mem hcfg2, ha2.trans harch, hb2.trans hbuild⟩
      refine ⟨{ package with version := v }, ?_, ?_⟩
      · have : ({ package with version := v } : QtPackage).name = c.normalized_name := hname
        rw [← this]
        exact regLookup_regSet_self _ _ _
      · exact hkey

/-- C6 (confirmed): ingesting the same artifact twice leaves the key
sequence and size of the registry unchanged, and leaves the affected
package's bucket count, identity, display name and version unchanged — the
second ingestion only appends a duplicate inside an existing bucket. -/
theorem ingest_idempotent (reg : List (String × QtPackage)) (c : Component) (v : String)
    (reg1 reg2 : List (String × QtPackage))
    (h1 : ingest reg c v = some reg1) (h2 : ingest reg1 c v = some reg2) :
    regKeys reg2 = regKeys reg1 ∧ reg2.length = reg1.length ∧
    ∃ q1 q2, regLookup reg1 c.normalized_name = some q1 ∧
      regLookup reg2 c.normalized_name = some q2 ∧
      q2.configurations.length = q1.configurations.length ∧
      q2.id = q1.id ∧ q2.name = q1.name ∧ q2.version = q1.version := by
  obtain ⟨q1, hq1, hkey⟩ := ingest_result_lookup reg c v reg1 h1
  simp only [ingest, hq1] at h2
  have hstable : (q1.get_config c.arch c.build).1 = q1 := get_config_stable q1 _ _ hkey
  rw [hstable] at h2
  cases ha : q1.addAt (q1.get_config c.arch c.build).2 c with
  | none => rw [ha] at h2; cases h2
  | some q2' =>
    rw [ha] at h2
    simp only [Option.map_some', Option.some.injEq] at h2
    subst h2
    have hsome : (regLookup reg1 c.normalized_name).isSome := by rw [hq1]; rfl
    have hkeys : regKeys (regSet reg1 c.normalized_name q2') = regKeys reg1 :=
      regKeys_regSet_of_mem _ _ _ hsome
    obtain ⟨hid, hname, hver, hlen, -⟩ := addAt_spec _ _ _ _ ha
    refine ⟨hkeys, ?_, q1, q2', hq1, regLookup_regSet_self _ _ _, hlen, hid, hname, hver⟩
    have := congrArg List.length hkeys
    simpa [regKeys] using this

/-- C6 witness: ingesting `qt5core.dll` twice into an empty registry: both
registries consist of the single key `qt5core`; the second ingestion only
duplicated the entry inside the release bucket. -/
theorem ingest_idempotent_witness :
    regKeys [("qt5core", (⟨"qt5core-msvc2013", "qt5core", "5.4.1",
        [⟨"x64", "release", [⟨"qt/bin/qt5core.dll", "t", "x64", []⟩,
          ⟨"qt/bin/qt5core.dll", "t", "x64", []⟩], [], []⟩], ∅⟩ : QtPackage))] =
      regKeys [("qt5core", (⟨"qt5core-msvc2013", "qt5core", "5.4.1",
        [⟨"x64", "release", [⟨"qt/bin/qt5core.dll", "t", "x64", []⟩], [], []⟩], ∅⟩ : QtPackage))] :=
  (ingest_idempotent [] ⟨"qt/bin/qt5core.dll", "t", "x64", []⟩ "5.4.1"
    [("qt5core", ⟨"qt5core-msvc2013", "qt5core", "5.4.1",
        [⟨"x64", "release", [⟨"qt/bin/qt5core.dll", "t", "x64", []⟩], [], []⟩], ∅⟩)]
    [("qt5core", ⟨"qt5core-msvc2013", "qt5core", "5.4.1",
        [⟨"x64", "release", [⟨"qt/bin/qt5core.dll", "t", "x64", []⟩,
          ⟨"qt/bin/qt5core.dll", "t", "x64", []⟩], [], []⟩], ∅⟩)]
    (by decide) (by decide)).1

/-! ## Claims C2 and C9 — merge operation -/

/-- Multiset view of a list concatenation. -/
theorem mcoe_append (l1 l2 : List Component) :
    ((l1 ++ l2 : List Component) : Multiset Component) =
      (l1 : Multiset Component) + (l2 : Multiset Component) := rfl

/-- Multiset view of a one-element list. -/
theorem mcoe_single (c : Component) :
    (([c] : List Component) : Multiset Component) = {c} := rfl

/-- Multiset view of a cons. -/
theorem mcoe_cons (c : Component) (t : List Component) :
    ((c :: t : List Component) : Multiset Component) = {c} + (t : Multiset Component) := by
  rw [← Multiset.cons_coe, ← Multiset.singleton_add]

/-- `add_component` grows the bucket content by exactly the added
artifact. -/
theorem add_component_allM (cfg : PackageConfig) (c : Component) (cfg2 : PackageConfig)
    (h : cfg.add_component c = some cfg2) : cfg2.allM = cfg.allM + {c} := by
  cases hc : c.type with
  | none => simp [PackageConfig.add_component, hc] at h
  | some t =>
    simp only [PackageConfig.add_component, hc] at h
    split at h
    · injection h with h; subst h
      simp only [PackageConfig.allM, PackageConfig.all, mcoe_append, mcoe_single]
      abel
    · split at h
      · injection h with h; subst h
        simp only [PackageConfig.allM, PackageConfig.all, mcoe_append, mcoe_single]
        abel
      · split at h
        · injection h with h; subst h
          simp only [PackageConfig.allM, PackageConfig.all, mcoe_append, mcoe_single]
          abel
        · cases h

/-- Replacing one bucket changes the total bucket-content sum by the
content the replacement adds. -/
theorem sum_allM_set :
    ∀ (l : List PackageConfig) (i : Nat) (cfg cfg2 : PackageConfig) (m : Multiset Component),
      l[i]? = some cfg → cfg2.allM = cfg.allM + m →
      ((l.set i cfg2).map PackageConfig.allM).sum = (l.map PackageConfig.allM).sum + m := by
  intro l
  induction l with
  | nil => intro i cfg cfg2 m hg; simp at hg
  | cons hd t ih =>
    intro i cfg cfg2 m hg hm
    cases i with
    | zero =>
      simp only [List.getElem?_cons_zero, Option.some.injEq] at hg
      subst hg
      simp only [List.set_cons_zero, List.map_cons, List.sum_cons, hm]
      abel
    | succ j =>
      simp only [List.getElem?_cons_succ] at hg
      simp only [List.set_cons_succ, List.map_cons, List.sum_cons, ih j cfg cfg2 m hg hm]
      abel

/-- Replacing one bucket by a key-preserving enlargement changes the
per-key content sum only at that bucket's key. -/
theorem sumAt_set (a b : String) :
    ∀ (l : List PackageConfig) (i : Nat) (cfg cfg2 : PackageConfig) (m : Multiset Component),
      l[i]? = some cfg → cfg2.arch = cfg.arch → cfg2.build = cfg.build →
      cfg2.allM = cfg.allM + m →
      (((l.set i cfg2).filter fun g => decide (g.arch = a ∧ g.build = b)).map
          PackageConfig.allM).sum =
        ((l.filter fun g => decide (g.arch = a ∧ g.build = b)).map PackageConfig.allM).sum +
          (if cfg.arch = a ∧ cfg.build = b then m else 0) := by
  intro l
  induction l with
  | nil => intro i cfg cfg2 m hg; simp at hg
  | cons hd t ih =>
    intro i cfg cfg2 m hg ha hb hm
    cases i with
    | zero =>
      simp only [List.getElem?_cons_zero, Option.some.injEq] at hg
      subst hg
      simp only [List.set_cons_zero, List.filter_cons]
      by_cases hkey : hd.arch = a ∧ hd.build = b
      · have hkey2 : cfg2.arch = a ∧ cfg2.build = b := ⟨ha.trans hkey.1, hb.trans hkey.2⟩
        rw [if_pos (decide_eq_true hkey2), if_pos (decide_eq_true hkey), if_pos hkey]
        simp only [List.map_cons, List.sum_cons, hm]
        abel
      · have hkey2 : ¬(cfg2.arch = a ∧ cfg2.build = b) := by rw [ha, hb]; exact hkey
        rw [if_neg (by simpa using hkey2), if_neg (by simpa using hkey), if_neg hkey]
        simp
    | succ j =>
      simp only [List.getElem?_cons_succ] at hg
      simp only [List.set_cons_succ, List.filter_cons]
      by_cases hkey : hd.arch = a ∧ hd.build = b
      · rw [if_pos (decide_eq_true hkey), if_pos (decide_eq_true hkey)]
        simp only [List.map_cons, List.sum_cons, ih j cfg cfg2 m hg ha hb hm]
        abel
      · rw [if_neg (by simpa using hkey), if_neg (by simpa using hkey)]
        exact ih j cfg cfg2 m hg ha hb hm

/-- `addAt` grows the package content by exactly the added artifact. -/
theorem addAt_comps (p : QtPackage) (i : Nat) (c : Component) (p2 : QtPackage)
    (h : p.addAt i c = some p2) : p2.comps = p.comps + {c} := by
  cases hg : p.configurations[i]? with
  | none => simp [QtPackage.addAt, hg] at h
  | some cfg =>
    simp only [QtPackage.addAt, hg] at h
    cases ha : cfg.add_component c with
    | none => rw [ha] at h; cases h
    | some cfg2 =>
      rw [ha] at h
      simp only [Option.map_some', Option.some.injEq] at h
      subst h
      show ((p.configurations.set i cfg2).map PackageConfig.allM).sum = _
      rw [sum_allM_set p.configurations i cfg cfg2 {c} hg (add_component_allM cfg c cfg2 ha)]
      rfl

/-- `addAt` grows the per-key package content only at the key of the
touched bucket. -/
theorem addAt_compsAt (p : QtPackage) (i : Nat) (c : Component) (p2 : QtPackage)
    (cfg : PackageConfig) (hg : p.configurations[i]? = some cfg)
    (h : p.addAt i c = some p2) (a b : String) :
    p2.compsAt a b = p.compsAt a b +
      (if cfg.arch = a ∧ cfg.build = b then ({c} : Multiset Component) else 0) := by
  simp only [QtPackage.addAt, hg] at h
  cases ha : cfg.add_component c with
  | none => rw [ha] at h; cases h
  | some cfg2 =>
    rw [ha] at h
    simp only [Option.map_some', Option.some.injEq] at h
    subst h
    obtain ⟨harch, hbuild⟩ := add_component_key cfg c cfg2 ha
    show (((p.configurations.set i cfg2).filter _).map PackageConfig.allM).sum = _
    rw [sumAt_set a b p.configurations i cfg cfg2 {c} hg harch hbuild
      (add_component_allM cfg c cfg2 ha)]
    rfl

/-- `get_config` does not change the package's total content (a created
bucket is empty). -/
theorem get_config_comps (p : QtPackage) (a b : String) :
    (p.get_config a b).1.comps = p.comps := by
  unfold QtPackage.get_config
  cases findConfigIdx p.configurations a b with
  | some i => rfl
  | none =>
    show ((p.configurations ++ [(⟨a, b, [], [], []⟩ : PackageConfig)]).map
      PackageConfig.allM).sum = _
    simp [QtPackage.comps, PackageConfig.allM, PackageConfig.all]

/-- `get_config` does not change the package's per-key content. -/
theorem get_config_compsAt (p : QtPackage) (a b x y : String) :
    (p.get_config a b).1.compsAt x y = p.compsAt x y := by
  unfold QtPackage.get_config
  cases findConfigIdx p.configurations a b with
  | some i => rfl
  | none =>
    show (((p.configurations ++ [(⟨a, b, [], [], []⟩ : PackageConfig)]).filter
      (fun g => decide (g.arch = x ∧ g.build = y))).map PackageConfig.allM).sum = _
    rw [List.filter_append]
    simp only [List.map_append, List.sum_append]
    by_cases hk : a = x ∧ b = y
    · simp [List.filter_cons, hk, PackageConfig.allM, PackageConfig.all, QtPackage.compsAt]
    · simp [List.filter_cons, hk, QtPackage.compsAt]

/-- Content change of the loop appending a list of artifacts into the
bucket at a fixed position. -/
theorem foldl_addAt_content (i : Nat) (a b : String) :
    ∀ (l : List Component) (q q2 : QtPackage) (cfg0 : PackageConfig),
      q.configurations[i]? = some cfg0 → cfg0.arch = a → cfg0.build = b →
      l.foldlM (fun acc comp => acc.addAt i comp) q = some q2 →
      (q2.comps = q.comps + (l : Multiset Component) ∧
       ∀ x y, q2.compsAt x y = q.compsAt x y +
         (if a = x ∧ b = y then (l : Multiset Component) else 0)) := by
  intro l
  induction l with
  | nil =>
    intro q q2 cfg0 hg ha hb h
    simp only [List.foldlM_nil] at h
    injection h with h
    subst h
    refine ⟨by simp, fun x y => by simp⟩
  | cons c t ih =>
    intro q q2 cfg0 hg ha hb h
    rw [List.foldlM_cons] at h
    cases haa : q.addAt i c with
    | none => rw [haa] at h; simp at h
    | some q1 =>
      rw [haa] at h
      simp only [Option.bind_eq_bind, Option.some_bind] at h
      obtain ⟨-, -, -, -, hidx⟩ := addAt_spec _ _ _ _ haa
      obtain ⟨cfg1, hg1, ha1, hb1⟩ := hidx cfg0 hg
      obtain ⟨ih1, ih2⟩ := ih q1 q2 cfg1 hg1 (ha1.trans ha) (hb1.trans hb) h
      constructor
      · rw [ih1, addAt_comps q i c q1 haa, mcoe_cons]
        abel
      · intro x y
        rw [ih2 x y, addAt_compsAt q i c q1 cfg0 hg haa x y, ha, hb, mcoe_cons]
        by_cases hxy : a = x ∧ b = y
        · rw [if_pos hxy, if_pos hxy, if_pos hxy]
          abel
        · rw [if_neg hxy, if_neg hxy, if_neg hxy]
          abel

/-- Transplanting one member bucket adds exactly that bucket's content, at
that bucket's key. -/
theorem transplantConfig_content (t : QtPackage) (cfg : PackageConfig) (t2 : QtPackage)
    (h : transplantConfig t cfg = some t2) :
    t2.comps = t.comps + cfg.allM ∧
    ∀ x y, t2.compsAt x y = t.compsAt x y +
      (if cfg.arch = x ∧ cfg.build = y then cfg.allM else 0) := by
  unfold transplantConfig at h
  obtain ⟨cfg0, hg, ha, hb⟩ := get_config_key t cfg.arch cfg.build
  obtain ⟨h1, h2⟩ := foldl_addAt_content (t.get_config cfg.arch cfg.build).2 cfg.arch
    cfg.build cfg.all (t.get_config cfg.arch cfg.build).1 t2 cfg0 hg ha hb h
  constructor
  · rw [h1, get_config_comps]; rfl
  · intro x y
    rw [h2 x y, get_config_compsAt]
    rfl

/-- Content change of transplanting a list of buckets. -/
theorem transplant_content :
    ∀ (cfgs : List PackageConfig) (t t2 : QtPackage),
      cfgs.foldlM transplantConfig t = some t2 →
      t2.comps = t.comps + (cfgs.map PackageConfig.allM).sum ∧
      ∀ x y, t2.compsAt x y = t.compsAt x y +
        ((cfgs.filter fun g => decide (g.arch = x ∧ g.build = y)).map
          PackageConfig.allM).sum := by
  intro cfgs
  induction cfgs with
  | nil =>
    intro t t2 h
    simp only [List.foldlM_nil] at h
    injection h with h
    subst h
    exact ⟨by simp, fun x y => by simp⟩
  | cons cfg rest ih =>
    intro t t2 h
    rw [List.foldlM_cons] at h
    cases htc : transplantConfig t cfg with
    | none => rw [htc] at h; simp at h
    | some t1 =>
      rw [htc] at h
      simp only [Option.bind_eq_bind, Option.some_bind] at h
      obtain ⟨tc1, tc2⟩ := transplantConfig_content t cfg t1 htc
      obtain ⟨ih1, ih2⟩ := ih t1 t2 h
      constructor
      · rw [ih1, tc1, List.map_cons, List.sum_cons]
        abel
      · intro x y
        rw [ih2 x y, tc2 x y, List.filter_cons]
        by_cases hk : cfg.arch = x ∧ cfg.build = y
        · rw [if_pos (decide_eq_true hk), if_pos hk, List.map_cons, List.sum_cons]
          abel
        · rw [if_neg hk,
            if_neg (show ¬(decide (cfg.arch = x ∧ cfg.build = y) = true) by simpa using hk)]
          abel

/-- `transplant` moves exactly the member package's content into the
target, key by key. -/
theorem transplant_comps (t p t2 : QtPackage) (h : transplant t p = some t2) :
    t2.comps = t.comps + p.comps ∧
    ∀ x y, t2.compsAt x y = t.compsAt x y + p.compsAt x y :=
  transplant_content p.configurations t t2 h

/-- Registry content of a cons cell. -/
theorem regComps_cons (k : String) (v : QtPackage) (t : List (String × QtPackage)) :
    regComps ((k, v) :: t) = v.comps + regComps t := by
  simp [regComps]

/-- Deleting the head binding. -/
theorem regDel_cons_eq (k : String) (v : QtPackage) (t : List (String × QtPackage)) :
    regDel ((k, v) :: t) k = t := by
  simp [regDel]

/-- Deleting past a non-matching head binding. -/
theorem regDel_cons_ne (k2 : String) (v : QtPackage) (t : List (String × QtPackage))
    (k : String) (h : k2 ≠ k) : regDel ((k2, v) :: t) k = (k2, v) :: regDel t k := by
  simp [regDel, h]

/-- Replacing the head binding. -/
theorem regSetIfPresent_cons_eq (k : String) (w v : QtPackage)
    (t : List (String × QtPackage)) : regSetIfPresent ((k, w) :: t) k v = (k, v) :: t := by
  simp [regSetIfPresent]

/-- Replacing past a non-matching head binding. -/
theorem regSetIfPresent_cons_ne (k2 : String) (w : QtPackage)
    (t : List (String × QtPackage)) (k : String) (v : QtPackage) (h : k2 ≠ k) :
    regSetIfPresent ((k2, w) :: t) k v = (k2, w) :: regSetIfPresent t k v := by
  simp [regSetIfPresent, h]

/-- Looking up the head binding. -/
theorem regLookup_cons_eq (k : String) (v : QtPackage) (t : List (String × QtPackage)) :
    regLookup ((k, v) :: t) k = some v := by
  simp [regLookup]

/-- Looking up past a non-matching head binding. -/
theorem regLookup_cons_ne (k2 : String) (v : QtPackage) (t : List (String × QtPackage))
    (k : String) (h : k2 ≠ k) : regLookup ((k2, v) :: t) k = regLookup t k := by
  simp [regLookup, h]

/-- Deleting one key leaves lookups of other keys unchanged. -/
theorem regLookup_regDel_ne (r : List (String × QtPackage)) (k m : String) (h : m ≠ k) :
    regLookup (regDel r k) m = regLookup r m := by
  induction r with
  | nil => rfl
  | cons kv t ih =>
    obtain ⟨k2, w⟩ := kv
    simp only [regDel, regLookup]
    by_cases hk : k2 = k
    · rw [if_pos hk]
      subst hk
      rw [if_neg (fun hc => h hc.symm)]
    · rw [if_neg hk]
      simp only [regLookup]
      by_cases hm : k2 = m
      · rw [if_pos hm, if_pos hm]
      · rw [if_neg hm, if_neg hm, ih]

/-- A key resolves to nothing exactly when it is not among the registry
keys. -/
theorem regLookup_eq_none_iff (r : List (String × QtPackage)) (m : String) :
    regLookup r m = none ↔ m ∉ r.map Prod.fst := by
  induction r with
  | nil => simp [regLookup]
  | cons kv t ih =>
    obtain ⟨k2, w⟩ := kv
    simp only [regLookup, List.map_cons, List.mem_cons]
    by_cases hk : k2 = m
    · simp [hk]
    · simp [hk, ih, Ne.symm hk]

/-- Deletion only removes keys. -/
theorem regDel_keys_sublist (r : List (String × QtPackage)) (k : String) :
    List.Sublist ((regDel r k).map Prod.fst) (r.map Prod.fst) := by
  induction r with
  | nil => simp [regDel]
  | cons kv t ih =>
    obtain ⟨k2, w⟩ := kv
    simp only [regDel]
    by_cases hk : k2 = k
    · rw [if_pos hk]
      simp only [List.map_cons]
      exact List.sublist_cons_self _ _
    · rw [if_neg hk]
      simp only [List.map_cons]
      exact List.Sublist.cons₂ _ ih

/-- Deletion keeps the keys duplicate-free. -/
theorem regKeys_regDel_nodup (r : List (String × QtPackage)) (k : String)
    (h : (regKeys r).Nodup) : (regKeys (regDel r k)).Nodup :=
  List.Nodup.sublist (regDel_keys_sublist r k) h

/-- Deletion never makes an absent key resolvable. -/
theorem regLookup_regDel_none (r : List (String × QtPackage)) (k m : String)
    (h : regLookup r m = none) : regLookup (regDel r k) m = none := by
  rw [regLookup_eq_none_iff] at *
  exact fun hc => h ((regDel_keys_sublist r k).mem hc)

/-- With duplicate-free keys, deleting a key makes it unresolvable. -/
theorem regLookup_regDel_self (r : List (String × QtPackage)) (k : String)
    (h : (regKeys r).Nodup) : regLookup (regDel r k) k = none := by
  induction r with
  | nil => rfl
  | cons kv t ih =>
    obtain ⟨k2, w⟩ := kv
    simp only [regKeys, List.map_cons, List.nodup_cons] at h
    simp only [regDel]
    by_cases hk : k2 = k
    · rw [if_pos hk]
      subst hk
      rw [regLookup_eq_none_iff]
      exact h.1
    · rw [if_neg hk]
      simp only [regLookup]
      rw [if_neg hk]
      exact ih h.2

/-- The registry content splits off a resolvable binding. -/
theorem regComps_del (r : List (String × QtPackage)) (k : String) (p : QtPackage)
    (h : regLookup r k = some p) : regComps r = p.comps + regComps (regDel r k) := by
  induction r with
  | nil => cases h
  | cons kv t ih =>
    obtain ⟨k2, w⟩ := kv
    rw [regComps_cons]
    by_cases hk : k2 = k
    · subst hk
      rw [regLookup_cons_eq] at h
      injection h with h
      subst h
      rw [regDel_cons_eq]
    · rw [regLookup_cons_ne _ _ _ _ hk] at h
      rw [regDel_cons_ne _ _ _ _ hk, regComps_cons, ih h]
      abel

/-- Deletions of distinct keys commute. -/
theorem regDel_comm (r : List (String × QtPackage)) (k m : String) (h : k ≠ m) :
    regDel (regDel r k) m = regDel (regDel r m) k := by
  induction r with
  | nil => rfl
  | cons kv t ih =>
    obtain ⟨k2, w⟩ := kv
    by_cases hk : k2 = k
    · subst hk
      rw [regDel_cons_eq, regDel_cons_ne _ _ _ _ h, regDel_cons_eq]
    · by_cases hm : k2 = m
      · subst hm
        rw [regDel_cons_ne _ _ _ _ hk, regDel_cons_eq, regDel_cons_eq]
      · rw [regDel_cons_ne _ _ _ _ hk, regDel_cons_ne _ _ _ _ hm,
          regDel_cons_ne _ _ _ _ hm, regDel_cons_ne _ _ _ _ hk, ih]

/-- Writing back the live target object through its still-present
binding. -/
theorem regLookup_regSetIfPresent_self (r : List (String × QtPackage)) (k : String)
    (v : QtPackage) (h : (regLookup r k).isSome) :
    regLookup (regSetIfPresent r k v) k = some v := by
  induction r with
  | nil => simp [regLookup] at h
  | cons kv t ih =>
    obtain ⟨k2, w⟩ := kv
    by_cases hk : k2 = k
    · subst hk
      rw [regSetIfPresent_cons_eq, regLookup_cons_eq]
    · rw [regLookup_cons_ne _ _ _ _ hk] at h
      rw [regSetIfPresent_cons_ne _ _ _ _ _ hk, regLookup_cons_ne _ _ _ _ hk]
      exact ih h

/-- The write-back leaves other keys' lookups unchanged. -/
theorem regLookup_regSetIfPresent_ne (r : List (String × QtPackage)) (k : String)
    (v : QtPackage) (m : String) (h : m ≠ k) :
    regLookup (regSetIfPresent r k v) m = regLookup r m := by
  induction r with
  | nil => rfl
  | cons kv t ih =>
    obtain ⟨k2, w⟩ := kv
    by_cases hk : k2 = k
    · subst hk
      rw [regSetIfPresent_cons_eq, regLookup_cons_ne _ _ _ _ (fun hc => h hc.symm),
        regLookup_cons_ne _ _ _ _ (fun hc => h hc.symm)]
    · rw [regSetIfPresent_cons_ne _ _ _ _ _ hk]
      by_cases hm : k2 = m
      · subst hm
        rw [regLookup_cons_eq, regLookup_cons_eq]
      · rw [regLookup_cons_ne _ _ _ _ hm, regLookup_cons_ne _ _ _ _ hm, ih]

/-- Content of the registry after the write-back. -/
theorem regComps_setIfPresent (r : List (String × QtPackage)) (k : String)
    (v q : QtPackage) (h : regLookup r k = some q) :
    regComps (regSetIfPresent r k v) = v.comps + regComps (regDel r k) := by
  induction r with
  | nil => cases h
  | cons kv t ih =>
    obtain ⟨k2, w⟩ := kv
    by_cases hk : k2 = k
    · subst hk
      rw [regSetIfPresent_cons_eq, regDel_cons_eq, regComps_cons]
    · rw [regLookup_cons_ne _ _ _ _ hk] at h
      rw [regSetIfPresent_cons_ne _ _ _ _ _ hk, regDel_cons_ne _ _ _ _ hk,
        regComps_cons, regComps_cons, ih h]
      abel

/-- A resolvable name's per-key content, through the registry. -/
theorem regCompsAt_eq (r : List (String × QtPackage)) (n : String) (p : QtPackage)
    (h : regLookup r n = some p) (a b : String) : regCompsAt r n a b = p.compsAt a b := by
  unfold regCompsAt
  rw [h]

/-- Decomposition of a successful member iteration when the member is not
the target: the member is looked up, its content transplanted into the live
target, and its binding deleted. -/
theorem mergeOne_some (targetname : String) (tval : QtPackage)
    (reg : List (String × QtPackage)) (m : String)
    (st2 : QtPackage × List (String × QtPackage)) (hne : m ≠ targetname)
    (h : mergeOne targetname (tval, reg) m = some st2) :
    ∃ p, regLookup reg m = some p ∧ transplant tval p = some st2.1 ∧ st2.2 = regDel reg m := by
  cases hl : regLookup reg m with
  | none => simp [mergeOne, hl] at h
  | some stored =>
    simp only [mergeOne, hl, if_neg hne] at h
    cases htr : transplant tval stored with
    | none => rw [htr] at h; cases h
    | some tval1 =>
      rw [htr] at h
      simp only [Option.map_some', Option.some.injEq] at h
      subst h
      exact ⟨stored, rfl, htr, rfl⟩

/-- Every successful member iteration runs a transplant into the live
target (also when the member aliases the target). -/
theorem mergeOne_transplant (targetname : String) (tval : QtPackage)
    (reg : List (String × QtPackage)) (m : String)
    (st2 : QtPackage × List (String × QtPackage))
    (h : mergeOne targetname (tval, reg) m = some st2) :
    ∃ q, transplant tval q = some st2.1 := by
  cases hl : regLookup reg m with
  | none => simp [mergeOne, hl] at h
  | some stored =>
    simp only [mergeOne, hl] at h
    cases htr : transplant tval (if m = targetname then tval else stored) with
    | none => rw [htr] at h; cases h
    | some tval1 =>
      rw [htr] at h
      simp only [Option.map_some', Option.some.injEq] at h
      subst h
      exact ⟨_, htr⟩

/-- The live target's content only grows over the member loop. -/
theorem mergeFold_mono (targetname : String) :
    ∀ (ms : List String) (tval : QtPackage) (reg : List (String × QtPackage))
      (tval2 : QtPackage) (reg2 : List (String × QtPackage)),
      ms.foldlM (mergeOne targetname) (tval, reg) = some (tval2, reg2) →
      tval.comps ≤ tval2.comps := by
  intro ms
  induction ms with
  | nil =>
    intro tval reg tval2 reg2 h
    simp only [List.foldlM_nil] at h
    injection h with h
    injection h with h1 h2
    subst h1
    exact le_refl _
  | cons m rest ih =>
    intro tval reg tval2 reg2 h
    rw [List.foldlM_cons] at h
    cases hmo : mergeOne targetname (tval, reg) m with
    | none => rw [hmo] at h; simp at h
    | some st1 =>
      rw [hmo] at h
      simp only [Option.bind_eq_bind, Option.some_bind] at h
      obtain ⟨q, htr⟩ := mergeOne_transplant targetname tval reg m st1 hmo
      obtain ⟨ta, rb⟩ := st1
      have h1 : tval.comps ≤ ta.comps := by
        rw [(transplant_comps tval q ta htr).1]
        exact le_add_right (le_refl _)
      exact h1.trans (ih ta rb tval2 reg2 h)

/-- Invariant of the member loop (target not among the members): the live
target's content plus the content of the registry without the target
binding is constant, and the stale target binding is untouched. -/
theorem mergeFold_inv (targetname : String) :
    ∀ (ms : List String) (tval : QtPackage) (reg : List (String × QtPackage))
      (tval2 : QtPackage) (reg2 : List (String × QtPackage)),
      targetname ∉ ms →
      ms.foldlM (mergeOne targetname) (tval, reg) = some (tval2, reg2) →
      (tval2.comps + regComps (regDel reg2 targetname) =
        tval.comps + regComps (regDel reg targetname)) ∧
      regLookup reg2 targetname = regLookup reg targetname := by
  intro ms
  induction ms with
  | nil =>
    intro tval reg tval2 reg2 hnm h
    simp only [List.foldlM_nil] at h
    injection h with h
    injection h with h1 h2
    subst h1
    subst h2
    exact ⟨rfl, rfl⟩
  | cons m rest ih =>
    intro tval reg tval2 reg2 hnm h
    rw [List.foldlM_cons] at h
    have hmne : m ≠ targetname := fun hc => hnm (by simp [hc])
    have hrne : targetname ∉ rest := fun hc => hnm (List.mem_cons_of_mem _ hc)
    cases hmo : mergeOne targetname (tval, reg) m with
    | none => rw [hmo] at h; simp at h
    | some st1 =>
      rw [hmo] at h
      simp only [Option.bind_eq_bind, Option.some_bind] at h
      obtain ⟨p, hp, htr, hreg1⟩ := mergeOne_some targetname tval reg m st1 hmne hmo
      obtain ⟨ta, rb⟩ := st1
      simp only at hreg1
      subst hreg1
      obtain ⟨ih1, ih2⟩ := ih ta (regDel reg m) tval2 reg2 hrne h
      constructor
      · rw [ih1, (transplant_comps tval p ta htr).1,
          regDel_comm reg m targetname hmne]
        have hpt : regLookup (regDel reg targetname) m = some p := by
          rw [regLookup_regDel_ne reg targetname m hmne]
          exact hp
        rw [regComps_del (regDel reg targetname) m p hpt]
        abel
      · rw [ih2, regLookup_regDel_ne reg m targetname (Ne.symm hmne)]

/-- Everything a member held before the loop sits inside the live target
after the loop. -/
theorem mergeFold_member (targetname : String) :
    ∀ (ms : List String) (tval : QtPackage) (reg : List (String × QtPackage))
      (tval2 : QtPackage) (reg2 : List (String × QtPackage)),
      targetname ∉ ms →
      ms.foldlM (mergeOne targetname) (tval, reg) = some (tval2, reg2) →
      ∀ m ∈ ms, ∀ p, regLookup reg m = some p → p.comps ≤ tval2.comps := by
  intro ms
  induction ms with
  | nil => intro tval reg tval2 reg2 hnm h m hm; simp at hm
  | cons m0 rest ih =>
    intro tval reg tval2 reg2 hnm h m hm p hp
    rw [List.foldlM_cons] at h
    have hmne : m0 ≠ targetname := fun hc => hnm (by simp [hc])
    have hrne : targetname ∉ rest := fun hc => hnm (List.mem_cons_of_mem _ hc)
    cases hmo : mergeOne targetname (tval, reg) m0 with
    | none => rw [hmo] at h; simp at h
    | some st1 =>
      rw [hmo] at h
      simp only [Option.bind_eq_bind, Option.some_bind] at h
      obtain ⟨p0, hp0, htr, hreg1⟩ := mergeOne_some targetname tval reg m0 st1 hmne hmo
      obtain ⟨ta, rb⟩ := st1
      simp only at hreg1
      subst hreg1
      by_cases hmm : m = m0
      · subst hmm
        rw [hp] at hp0
        injection hp0 with hp0
        subst hp0
        have h1 : p.comps ≤ ta.comps := by
          rw [(transplant_comps tval p ta htr).1]
          exact le_add_self
        exact h1.trans (mergeFold_mono targetname rest ta (regDel reg m) tval2 reg2 h)
      · rcases List.mem_cons.mp hm with hc | hc
        · exact absurd hc hmm
        · refine ih ta (regDel reg m0) tval2 reg2 hrne h m hc p ?_
          rw [regLookup_regDel_ne reg m0 m hmm]
          exact hp

/-- C9 counterexample: a merge-table entry whose member list contains the
target itself ("qt5xml" merged into "qt5xml") completes without error, yet
deletes the target binding while the transplanted artifacts live only in
the orphaned object — the registry ends empty and the package's artifact is
dropped, violating the claimed multiset preservation even though target and
member exist in the registry beforehand. -/
theorem merge_packages_self_member_drops :
    merge_packages
      [("qt5xml", ⟨"qt5xml-msvc2013", "qt5xml", "5.4.1",
        [⟨"x64", "release", [⟨"qt/bin/qt5xml.dll", "t", "x64", []⟩], [], []⟩], ∅⟩)]
      "qt5xml" ["qt5xml"] = some [] ∧
    regComps
      [("qt5xml", ⟨"qt5xml-msvc2013", "qt5xml", "5.4.1",
        [⟨"x64", "release", [⟨"qt/bin/qt5xml.dll", "t", "x64", []⟩], [], []⟩], ∅⟩)] ≠
      regComps ([] : List (String × QtPackage)) := by decide

/-- C9 (amended): a successful merge whose target is not among its members
preserves the total multiset of artifacts stored across the registry, and
every artifact a member held beforehand is held by the target afterwards. -/
theorem merge_packages_preserves (reg : List (String × QtPackage)) (targetname : String)
    (ms : List String) (reg2 : List (String × QtPackage))
    (hnm : targetname ∉ ms)
    (h : merge_packages reg targetname ms = some reg2) :
    regComps reg2 = regComps reg ∧
    ∀ m ∈ ms, ∀ p, regLookup reg m = some p →
      ∀ q, regLookup reg2 targetname = some q → p.comps ≤ q.comps := by
  cases hl : regLookup reg targetname with
  | none => simp [merge_packages, hl] at h
  | some target =>
    simp only [merge_packages, hl] at h
    cases hf : ms.foldlM (mergeOne targetname) (target, reg) with
    | none => rw [hf] at h; cases h
    | some st =>
      rw [hf] at h
      simp only [Option.map_some', Option.some.injEq] at h
      subst h
      obtain ⟨tval2, reg2'⟩ := st
      obtain ⟨hinv, hlook⟩ := mergeFold_inv targetname ms target reg tval2 reg2' hnm hf
      rw [hl] at hlook
      constructor
      · rw [regComps_setIfPresent reg2' targetname tval2 target hlook, hinv,
          ← regComps_del reg targetname target hl]
      · intro m hm p hp q hq
        rw [regLookup_regSetIfPresent_self reg2' targetname tval2 (by rw [hlook]; rfl)] at hq
        injection hq with hq
        subst hq
        exact mergeFold_member targetname ms target reg tval2 reg2' hnm hf m hm p hp

/-- C9 witness: the amended theorem at a two-package registry, merging
`qt5xmlpatterns` into `qt5xml` — the total artifact multiset is
preserved. -/
theorem merge_packages_preserves_witness :
    regComps [("qt5xml", (⟨"qt5xml-msvc2013", "qt5xml", "5.4.1",
        [⟨"x64", "release", [⟨"qt/bin/qt5xml.dll", "t", "x64", []⟩,
          ⟨"qt/bin/qt5xmlpatterns.dll", "t", "x64", []⟩], [], []⟩], ∅⟩ : QtPackage))] =
    regComps [("qt5xml", (⟨"qt5xml-msvc2013", "qt5xml", "5.4.1",
        [⟨"x64", "release", [⟨"qt/bin/qt5xml.dll", "t", "x64", []⟩], [], []⟩], ∅⟩ : QtPackage)),
      ("qt5xmlpatterns", ⟨"qt5xmlpatterns-msvc2013", "qt5xmlpatterns", "5.4.1",
        [⟨"x64", "release", [⟨"qt/bin/qt5xmlpatterns.dll", "t", "x64", []⟩], [], []⟩], ∅⟩)] :=
  (merge_packages_preserves
    [("qt5xml", ⟨"qt5xml-msvc2013", "qt5xml", "5.4.1",
        [⟨"x64", "release", [⟨"qt/bin/qt5xml.dll", "t", "x64", []⟩], [], []⟩], ∅⟩),
     ("qt5xmlpatterns", ⟨"qt5xmlpatterns-msvc2013", "qt5xmlpatterns", "5.4.1",
        [⟨"x64", "release", [⟨"qt/bin/qt5xmlpatterns.dll", "t", "x64", []⟩], [], []⟩], ∅⟩)]
    "qt5xml" ["qt5xmlpatterns"]
    [("qt5xml", ⟨"qt5xml-msvc2013", "qt5xml", "5.4.1",
        [⟨"x64", "release", [⟨"qt/bin/qt5xml.dll", "t", "x64", []⟩,
          ⟨"qt/bin/qt5xmlpatterns.dll", "t", "x64", []⟩], [], []⟩], ∅⟩)]
    (by decide) (by decide)).1

/-- C2 (confirmed): after a successful
`merge(registry, qt5core, [qtmain, qt5bootstrap, qt5platformsupport])` on a
registry with duplicate-free keys, none of the three member names is a key
of the registry any more, and for every (architecture, buildFlavor) pair
the artifacts `qt5core` holds in its buckets for that pair are exactly the
multiset union of what the four original packages held in their buckets for
that pair. -/
theorem merge_qt5core_buckets (reg reg2 : List (String × QtPackage))
    (hnd : (regKeys reg).Nodup)
    (h : merge_packages reg "qt5core" ["qtmain", "qt5bootstrap", "qt5platformsupport"] =
      some reg2) :
    regLookup reg2 "qtmain" = none ∧
    regLookup reg2 "qt5bootstrap" = none ∧
    regLookup reg2 "qt5platformsupport" = none ∧
    ∀ a b, regCompsAt reg2 "qt5core" a b =
      regCompsAt reg "qt5core" a b + regCompsAt reg "qtmain" a b +
      regCompsAt reg "qt5bootstrap" a b + regCompsAt reg "qt5platformsupport" a b := by
  cases hl : regLookup reg "qt5core" with
  | none => simp [merge_packages, hl] at h
  | some target =>
    simp only [merge_packages, hl] at h
    rw [List.foldlM_cons] at h
    cases hm1 : mergeOne "qt5core" (target, reg) "qtmain" with
    | none => rw [hm1] at h; simp at h
    | some st1 =>
      rw [hm1] at h
      simp only [Option.bind_eq_bind, Option.some_bind] at h
      obtain ⟨p1, hp1, htr1, hr1⟩ := mergeOne_some _ _ _ _ _ (by decide) hm1
      obtain ⟨t1, r1⟩ := st1
      simp only at hr1
      subst hr1
      rw [List.foldlM_cons] at h
      cases hm2 : mergeOne "qt5core" (t1, regDel reg "qtmain") "qt5bootstrap" with
      | none => rw [hm2] at h; simp at h
      | some st2 =>
        rw [hm2] at h
        simp only [Option.bind_eq_bind, Option.some_bind] at h
        obtain ⟨p2, hp2, htr2, hr2⟩ := mergeOne_some _ _ _ _ _ (by decide) hm2
        obtain ⟨t2v, r2⟩ := st2
        simp only at hr2
        subst hr2
        rw [List.foldlM_cons] at h
        cases hm3 : mergeOne "qt5core"
            (t2v, regDel (regDel reg "qtmain") "qt5bootstrap") "qt5platformsupport" with
        | none => rw [hm3] at h; simp at h
        | some st3 =>
          rw [hm3] at h
          simp only [Option.bind_eq_bind, Option.some_bind, List.foldlM_nil] at h
          obtain ⟨p3, hp3, htr3, hr3⟩ := mergeOne_some _ _ _ _ _ (by decide) hm3
          obtain ⟨t3v, r3⟩ := st3
          simp only at hr3
          subst hr3
          injection h with h
          subst h
          have hp2r : regLookup reg "qt5bootstrap" = some p2 := by
            rw [← regLookup_regDel_ne reg "qtmain" "qt5bootstrap" (by decide)]
            exact hp2
          have hp3r : regLookup reg "qt5platformsupport" = some p3 := by
            rw [← regLookup_regDel_ne reg "qtmain" "qt5platformsupport" (by decide),
              ← regLookup_regDel_ne (regDel reg "qtmain") "qt5bootstrap"
                "qt5platformsupport" (by decide)]
            exact hp3
          have hcore3 : regLookup
              (regDel (regDel (regDel reg "qtmain") "qt5bootstrap") "qt5platformsupport")
              "qt5core" = some target := by
            rw [regLookup_regDel_ne _ _ _ (by decide), regLookup_regDel_ne _ _ _ (by decide),
              regLookup_regDel_ne _ _ _ (by decide)]
            exact hl
          have hq2core : regLookup (regSetIfPresent
              (regDel (regDel (regDel reg "qtmain") "qt5bootstrap") "qt5platformsupport")
              "qt5core" t3v) "qt5core" = some t3v :=
            regLookup_regSetIfPresent_self _ _ _ (by rw [hcore3]; rfl)
          refine ⟨?_, ?_, ?_, ?_⟩
          · rw [regLookup_regSetIfPresent_ne _ _ _ _ (by decide)]
            apply regLookup_regDel_none
            apply regLookup_regDel_none
            exact regLookup_regDel_self reg "qtmain" hnd
          · rw [regLookup_regSetIfPresent_ne _ _ _ _ (by decide)]
            apply regLookup_regDel_none
            exact regLookup_regDel_self (regDel reg "qtmain") "qt5bootstrap"
              (regKeys_regDel_nodup reg "qtmain" hnd)
          · exact (regLookup_regSetIfPresent_ne _ _ _ _ (by decide)).trans
              (regLookup_regDel_self (regDel (regDel reg "qtmain") "qt5bootstrap")
                "qt5platformsupport"
                (regKeys_regDel_nodup _ _ (regKeys_regDel_nodup reg "qtmain" hnd)))
          · intro a b
            rw [regCompsAt_eq _ _ _ hq2core, regCompsAt_eq _ _ _ hl,
              regCompsAt_eq _ _ _ hp1, regCompsAt_eq _ _ _ hp2r, regCompsAt_eq _ _ _ hp3r]
            rw [(transplant_comps t2v p3 t3v htr3).2 a b,
              (transplant_comps t1 p2 t2v htr2).2 a b,
              (transplant_comps target p1 t1 htr1).2 a b]

/-- C2 witness: a four-package registry where `qt5core` holds a binary and
`qtmain` a static import library; after the merge the member names are gone
and the `qt5core` bucket for (x64, release) holds the union. -/
theorem merge_qt5core_buckets_witness :
    regLookup [("qt5core", (⟨"qt5core-msvc2013", "qt5core", "5.4.1",
        [⟨"x64", "release", [⟨"qt/bin/qt5core.dll", "t", "x64", []⟩], [],
          [⟨"qt/lib/qtmain.lib", "t", "x64", []⟩]⟩], ∅⟩ : QtPackage))] "qtmain" = none ∧
    regCompsAt [("qt5core", (⟨"qt5core-msvc2013", "qt5core", "5.4.1",
        [⟨"x64", "release", [⟨"qt/bin/qt5core.dll", "t", "x64", []⟩], [],
          [⟨"qt/lib/qtmain.lib", "t", "x64", []⟩]⟩], ∅⟩ : QtPackage))]
        "qt5core" "x64" "release" =
      regCompsAt [("qt5core", (⟨"qt5core-msvc2013", "qt5core", "5.4.1",
          [⟨"x64", "release", [⟨"qt/bin/qt5core.dll", "t", "x64", []⟩], [], []⟩], ∅⟩ : QtPackage)),
        ("qtmain", ⟨"qtmain-msvc2013", "qtmain", "5.4.1",
          [⟨"x64", "release", [], [], [⟨"qt/lib/qtmain.lib", "t", "x64", []⟩]⟩], ∅⟩),
        ("qt5bootstrap", ⟨"qt5bootstrap-msvc2013", "qt5bootstrap", "5.4.1", [], ∅⟩),
        ("qt5platformsupport", ⟨"qt5platformsupport-msvc2013", "qt5platformsupport",
          "5.4.1", [], ∅⟩)] "qt5core" "x64" "release" +
      regCompsAt [("qt5core", (⟨"qt5core-msvc2013", "qt5core", "5.4.1",
          [⟨"x64", "release", [⟨"qt/bin/qt5core.dll", "t", "x64", []⟩], [], []⟩], ∅⟩ : QtPackage)),
        ("qtmain", ⟨"qtmain-msvc2013", "qtmain", "5.4.1",
          [⟨"x64", "release", [], [], [⟨"qt/lib/qtmain.lib", "t", "x64", []⟩]⟩], ∅⟩),
        ("qt5bootstrap", ⟨"qt5bootstrap-msvc2013", "qt5bootstrap", "5.4.1", [], ∅⟩),
        ("qt5platformsupport", ⟨"qt5platformsupport-msvc2013", "qt5platformsupport",
          "5.4.1", [], ∅⟩)] "qtmain" "x64" "release" +
      regCompsAt [("qt5core", (⟨"qt5core-msvc2013", "qt5core", "5.4.1",
          [⟨"x64", "release", [⟨"qt/bin/qt5core.dll", "t", "x64", []⟩], [], []⟩], ∅⟩ : QtPackage)),
        ("qtmain", ⟨"qtmain-msvc2013", "qtmain", "5.4.1",
          [⟨"x64", "release", [], [], [⟨"qt/lib/qtmain.lib", "t", "x64", []⟩]⟩], ∅⟩),
        ("qt5bootstrap", ⟨"qt5bootstrap-msvc2013", "qt5bootstrap", "5.4.1", [], ∅⟩),
        ("qt5platformsupport", ⟨"qt5platformsupport-msvc2013", "qt5platformsupport",
          "5.4.1", [], ∅⟩)] "qt5bootstrap" "x64" "release" +
      regCompsAt [("qt5core", (⟨"qt5core-msvc2013", "qt5core", "5.4.1",
          [⟨"x64", "release", [⟨"qt/bin/qt5core.dll", "t", "x64", []⟩], [], []⟩], ∅⟩ : QtPackage)),
        ("qtmain", ⟨"qtmain-msvc2013", "qtmain", "5.4.1",
          [⟨"x64", "release", [], [], [⟨"qt/lib/qtmain.lib", "t", "x64", []⟩]⟩], ∅⟩),
        ("qt5bootstrap", ⟨"qt5bootstrap-msvc2013", "qt5bootstrap", "5.4.1", [], ∅⟩),
        ("qt5platformsupport", ⟨"qt5platformsupport-msvc2013", "qt5platformsupport",
          "5.4.1", [], ∅⟩)] "qt5platformsupport" "x64" "release" :=
  ⟨(merge_qt5core_buckets
      [("qt5core", ⟨"qt5core-msvc2013", "qt5core", "5.4.1",
          [⟨"x64", "release", [⟨"qt/bin/qt5core.dll", "t", "x64", []⟩], [], []⟩], ∅⟩),
        ("qtmain", ⟨"qtmain-msvc2013", "qtmain", "5.4.1",
          [⟨"x64", "release", [], [], [⟨"qt/lib/qtmain.lib", "t", "x64", []⟩]⟩], ∅⟩),
        ("qt5bootstrap", ⟨"qt5bootstrap-msvc2013", "qt5bootstrap", "5.4.1", [], ∅⟩),
        ("qt5platformsupport", ⟨"qt5platformsupport-msvc2013", "qt5platformsupport",
          "5.4.1", [], ∅⟩)]
      [("qt5core", ⟨"qt5core-msvc2013", "qt5core", "5.4.1",
          [⟨"x64", "release", [⟨"qt/bin/qt5core.dll", "t", "x64", []⟩], [],
            [⟨"qt/lib/qtmain.lib", "t", "x64", []⟩]⟩], ∅⟩)]
      (by decide) (by decide)).1,
   (merge_qt5core_buckets
      [("qt5core", ⟨"qt5core-msvc2013", "qt5core", "5.4.1",
          [⟨"x64", "release", [⟨"qt/bin/qt5core.dll", "t", "x64", []⟩], [], []⟩], ∅⟩),
        ("qtmain", ⟨"qtmain-msvc2013", "qtmain", "5.4.1",
          [⟨"x64", "release", [], [], [⟨"qt/lib/qtmain.lib", "t", "x64", []⟩]⟩], ∅⟩),
        ("qt5bootstrap", ⟨"qt5bootstrap-msvc2013", "qt5bootstrap", "5.4.1", [], ∅⟩),
        ("qt5platformsupport", ⟨"qt5platformsupport-msvc2013", "qt5platformsupport",
          "5.4.1", [], ∅⟩)]
      [("qt5core", ⟨"qt5core-msvc2013", "qt5core", "5.4.1",
          [⟨"x64", "release", [⟨"qt/bin/qt5core.dll", "t", "x64", []⟩], [],
            [⟨"qt/lib/qtmain.lib", "t", "x64", []⟩]⟩], ∅⟩)]
      (by decide) (by decide)).2.2.2 "x64" "release"⟩
